import Mathlib

/-!
Verification development for the MRUHacks schedule-extraction repository.

The Python sources `find_free_times.py` and `find_times.py` are shallowly
embedded below.  Conventions used throughout:

* Python `int` values are modelled as `Int` (or `Nat` where the source value
  is provably non-negative, e.g. minutes-since-midnight).
* Python `float` arithmetic (pixel positions, pixels-per-hour averages) is
  modelled with exact rationals `ℚ`; every comparison the claims depend on is
  robust to this change of representation (thresholds such as `1.5` are
  exactly representable in binary floating point and the compared quantities
  stay far from them).
* Python exceptions are modelled with `Except PyErr`; `ValueError` (raised by
  `datetime.strptime` on a malformed time string) and `IndexError` (raised by
  an out-of-range list subscript) are the only exceptions the embedded code
  can raise.
* Python `dict`s keyed by strings are modelled as association lists in
  insertion order; `dict.get(k, d)` is `List.lookup` with a default.
* Python's stable `sort`/`sorted` is modelled with a stable structural
  insertion sort (`pysort`): any two stable sorts of the same list under the
  same total preorder produce identical output, and the structural recursion
  lets concrete schedules be evaluated by `rfl`/`decide`.
-/

/-- Exceptions the embedded Python code can raise. -/
inductive PyErr where
  | valueError : PyErr
  | indexError : PyErr
deriving DecidableEq, Repr

/-- Lift an `Option` produced by a parse into `Except`, raising `ValueError`
on `none` exactly as `datetime.strptime` does on a malformed string. -/
def pt {α : Type} : Option α → Except PyErr α
  | some v => Except.ok v
  | none => Except.error PyErr.valueError

/-! ### `datetime.strptime(s, "%I:%M %p")`, `time_to_minutes`, `minutes_to_time`

`strptime` compiles `"%I:%M %p"` to the anchored regex
`(1[0-2]|0[1-9]|[1-9]):([0-5]\d|\d)\s+(AM|PM)` (the period alternatives are
matched case-insensitively), requiring the whole string to be consumed.  The
parser below follows that regex field by field; the stages after the hour are
split into helper definitions (`afterHour`, `afterMin`, `afterSpace`) purely
for proof convenience. -/

/-- Numeric value of a decimal digit character. -/
def dval (c : Char) : Nat := c.toNat - '0'.toNat

/-- Parse the `%I` field: regex `1[0-2]|0[1-9]|[1-9]`.  When two digits are
present but do not form `01`–`12`, the single-digit alternative `[1-9]` would
consume one digit and then fail on the following `:` (the second digit is not
a colon), so the whole match fails. -/
def parseHour : List Char → Option (Nat × List Char)
  | c1 :: c2 :: rest =>
    if c1.isDigit && c2.isDigit then
      if (c1 = '1' && c2 ≤ '2') || (c1 = '0' && '1' ≤ c2) then
        some (10 * dval c1 + dval c2, rest)
      else none
    else if c1.isDigit && c1 ≠ '0' then some (dval c1, c2 :: rest)
    else none
  | [c1] => if c1.isDigit && c1 ≠ '0' then some (dval c1, []) else none
  | [] => none

/-- Parse the `%M` field: regex `[0-5]\d|\d`.  When two digits are present
with the first in `6`–`9`, the single-digit alternative would leave a digit
where the following `\s+` is required, so the whole match fails. -/
def parseMin : List Char → Option (Nat × List Char)
  | c1 :: c2 :: rest =>
    if c1.isDigit && c2.isDigit then
      if c1 ≤ '5' then some (10 * dval c1 + dval c2, rest) else none
    else if c1.isDigit then some (dval c1, c2 :: rest)
    else none
  | [c1] => if c1.isDigit then some (dval c1, []) else none
  | [] => none

/-- Parse `\s+` (one or more whitespace characters). -/
def parseSpaces : List Char → Option (List Char)
  | c :: rest => if c.isWhitespace then some (rest.dropWhile Char.isWhitespace) else none
  | [] => none

/-- Parse the trailing `%p` field (`AM`/`PM`, case-insensitive); `strptime`
requires the whole input to be consumed, so exactly two characters must
remain.  Returns `true` for PM. -/
def parsePeriod : List Char → Option Bool
  | [c1, c2] =>
    if (c1 = 'A' || c1 = 'a') && (c2 = 'M' || c2 = 'm') then some false
    else if (c1 = 'P' || c1 = 'p') && (c2 = 'M' || c2 = 'm') then some true
    else none
  | _ => none

/-- The 12-hour → 24-hour conversion performed by `strptime` when both `%I`
and `%p` are present. -/
def toH24 (h : Nat) (pm : Bool) : Nat :=
  if pm then (if h = 12 then 12 else h + 12) else (if h = 12 then 0 else h)

/-- Parser stage after `%I` and `%M` and the whitespace: the `%p` field. -/
def afterSpace (h mm : Nat) (r4 : List Char) : Option (Nat × Nat) :=
  match parsePeriod r4 with
  | none => none
  | some pm => some (toH24 h pm, mm)

/-- Parser stage after `%I:` and `%M`: the `\s+` separator. -/
def afterMin (h mm : Nat) (r3 : List Char) : Option (Nat × Nat) :=
  match parseSpaces r3 with
  | none => none
  | some r4 => afterSpace h mm r4

/-- Parser stage after `%I`: the literal `:` and the `%M` field. -/
def afterHour (h : Nat) : List Char → Option (Nat × Nat)
  | ':' :: r2 =>
    match parseMin r2 with
    | none => none
    | some (mm, r3) => afterMin h mm r3
  | _ => none

/-- `datetime.strptime(s, "%I:%M %p")`, reduced to the `(hour24, minute)`
pair which is all the callers use.  `none` models a raised `ValueError`. -/
def parse_time (s : String) : Option (Nat × Nat) :=
  match parseHour s.data with
  | none => none
  | some (h, r1) => afterHour h r1

/-- `time_to_minutes` from `find_free_times.py`: minutes since midnight. -/
def time_to_minutes (s : String) : Option Nat :=
  (parse_time s).map (fun p => p.1 * 60 + p.2)

/-- Python `f"{n:02d}"` on a natural number. -/
def pad2 (n : Nat) : String := if n < 10 then "0" ++ toString n else toString n

/-- Python `f"{n:02d}"` on an arbitrary integer. -/
def fmt02 (n : Int) : String := if n < 0 then "-" ++ toString (-n) else pad2 n.toNat

/-- `minutes_to_time` from `find_free_times.py`.  Python `//` and `%` on a
positive divisor are floor division and non-negative remainder, i.e.
`Int.fdiv` and `Int.emod` (the latter is Lean's `%` on `Int`). -/
def minutes_to_time (minutes : Int) : String :=
  let hours := minutes.fdiv 60
  let mins := minutes % 60
  let period := if hours < 12 then "AM" else "PM"
  let hours2 := if hours = 0 then 12 else if hours > 12 then hours - 12 else hours
  fmt02 hours2 ++ ":" ++ fmt02 mins ++ " " ++ period

example : time_to_minutes "08:00 AM" = some 480 := by decide
example : time_to_minutes "08:00 PM" = some 1200 := by decide
example : time_to_minutes "9:00 AM" = some 540 := by decide
example : time_to_minutes "12:00 AM" = some 0 := by decide
example : time_to_minutes "12:30 PM" = some 750 := by decide
example : time_to_minutes "13:00 PM" = none := by decide
example : minutes_to_time 540 = "09:00 AM" := by decide
example : minutes_to_time 0 = "12:00 AM" := by decide
example : minutes_to_time 720 = "12:00 PM" := by decide
example : minutes_to_time 1439 = "11:59 PM" := by decide

/-! ### Bounds and the canonical round trip -/

theorem dval_le_nine {c : Char} (h : c.isDigit = true) : dval c ≤ 9 := by
  have hb : 48 ≤ c.toNat ∧ c.toNat ≤ 57 := by simpa [Char.isDigit] using h
  have h0 : '0'.toNat = 48 := by decide
  unfold dval
  omega

theorem dval_le_two {c : Char} (hd : c.isDigit = true) (h : c ≤ '2') : dval c ≤ 2 := by
  have hb : 48 ≤ c.toNat ∧ c.toNat ≤ 57 := by simpa [Char.isDigit] using hd
  have hle : c.toNat ≤ 50 := by simpa [Char.le_def, Char.toNat] using h
  have h0 : '0'.toNat = 48 := by decide
  unfold dval
  omega

theorem dval_le_five {c : Char} (hd : c.isDigit = true) (h : c ≤ '5') : dval c ≤ 5 := by
  have hb : 48 ≤ c.toNat ∧ c.toNat ≤ 57 := by simpa [Char.isDigit] using hd
  have hle : c.toNat ≤ 53 := by simpa [Char.le_def, Char.toNat] using h
  have h0 : '0'.toNat = 48 := by decide
  unfold dval
  omega

/-- Any parsed hour is at most 12 (the `%I` regex admits only `1`–`9`,
`01`–`09` and `10`–`12`). -/
theorem parseHour_le {l : List Char} {h : Nat} {r : List Char}
    (hp : parseHour l = some (h, r)) : h ≤ 12 := by
  match l with
  | [] => simp [parseHour] at hp
  | [c1] =>
    simp only [parseHour] at hp
    split at hp
    · rename_i hc
      simp only [Bool.and_eq_true, decide_eq_true_eq] at hc
      simp only [Option.some.injEq, Prod.mk.injEq] at hp
      have := dval_le_nine hc.1
      omega
    · simp at hp
  | c1 :: c2 :: rest =>
    simp only [parseHour] at hp
    split at hp
    · rename_i hdig
      simp only [Bool.and_eq_true] at hdig
      split at hp
      · rename_i hcond
        simp only [Bool.or_eq_true, Bool.and_eq_true, decide_eq_true_eq] at hcond
        simp only [Option.some.injEq, Prod.mk.injEq] at hp
        obtain ⟨hh, -⟩ := hp
        rcases hcond with ⟨h1, h2⟩ | ⟨h1, h2⟩
        · subst h1
          have hb := dval_le_two hdig.2 h2
          have h1v : dval '1' = 1 := by decide
          omega
        · subst h1
          have hb := dval_le_nine hdig.2
          have h0v : dval '0' = 0 := by decide
          omega
      · simp at hp
    · split at hp
      · rename_i hc
        simp only [Bool.and_eq_true, decide_eq_true_eq] at hc
        simp only [Option.some.injEq, Prod.mk.injEq] at hp
        have := dval_le_nine hc.1
        omega
      · simp at hp

/-- Any parsed minute is at most 59 (the `%M` regex admits `0`–`9` and
`00`–`59`). -/
theorem parseMin_le {l : List Char} {m : Nat} {r : List Char}
    (hp : parseMin l = some (m, r)) : m ≤ 59 := by
  match l with
  | [] => simp [parseMin] at hp
  | [c1] =>
    simp only [parseMin] at hp
    split at hp
    · rename_i hc
      simp only [Option.some.injEq, Prod.mk.injEq] at hp
      have := dval_le_nine hc
      omega
    · simp at hp
  | c1 :: c2 :: rest =>
    simp only [parseMin] at hp
    split at hp
    · rename_i hdig
      simp only [Bool.and_eq_true] at hdig
      split at hp
      · rename_i h5
        simp only [Option.some.injEq, Prod.mk.injEq] at hp
        obtain ⟨hh, -⟩ := hp
        have hb1 := dval_le_five hdig.1 h5
        have hb2 := dval_le_nine hdig.2
        omega
      · simp at hp
    · split at hp
      · rename_i hc
        simp only [Option.some.injEq, Prod.mk.injEq] at hp
        have := dval_le_nine hc
        omega
      · simp at hp

theorem toH24_le {h : Nat} (hh : h ≤ 12) (pm : Bool) : toH24 h pm ≤ 23 := by
  unfold toH24
  split <;> split <;> omega

theorem afterSpace_eq {h mm h24 m : Nat} {r4 : List Char}
    (hp : afterSpace h mm r4 = some (h24, m)) : (∃ pm, h24 = toH24 h pm) ∧ m = mm := by
  unfold afterSpace at hp
  rcases hq : parsePeriod r4 with _ | pm <;> rw [hq] at hp
  · simp at hp
  · simp only [Option.some.injEq, Prod.mk.injEq] at hp
    exact ⟨⟨pm, hp.1.symm⟩, hp.2.symm⟩

theorem afterMin_eq {h mm h24 m : Nat} {r3 : List Char}
    (hp : afterMin h mm r3 = some (h24, m)) : (∃ pm, h24 = toH24 h pm) ∧ m = mm := by
  unfold afterMin at hp
  rcases hq : parseSpaces r3 with _ | r4 <;> rw [hq] at hp
  · simp at hp
  · exact afterSpace_eq hp

theorem afterHour_lt {h h24 m : Nat} {l : List Char} (hh : h ≤ 12)
    (hp : afterHour h l = some (h24, m)) : h24 * 60 + m < 1440 := by
  rw [afterHour.eq_def] at hp
  split at hp
  · rename_i r2
    rcases hq : parseMin r2 with _ | ⟨mm, r3⟩ <;> rw [hq] at hp
    · simp at hp
    · obtain ⟨⟨pm, h1⟩, h2⟩ := afterMin_eq hp
      have hmle := parseMin_le hq
      have h24le := toH24_le hh pm
      omega
  · simp at hp

/-- Every successfully parsed time is a minutes-since-midnight value below
1440. -/
theorem time_to_minutes_lt {s : String} {v : Nat}
    (h : time_to_minutes s = some v) : v < 1440 := by
  unfold time_to_minutes at h
  rcases hq : parse_time s with _ | ⟨h24, m⟩ <;> rw [hq] at h
  · simp at h
  · simp only [Option.map_some', Option.some.injEq] at h
    unfold parse_time at hq
    rcases hh : parseHour s.data with _ | ⟨hr, r1⟩ <;> rw [hh] at hq
    · simp at hq
    · have := afterHour_lt (parseHour_le hh) hq
      omega

set_option maxRecDepth 4000 in
/-- Kernel-checked table: the round trip holds for every canonical output of
`minutes_to_time` on `[0, 1439]`. -/
theorem roundtrip_all : ((List.range 1440).all
    (fun n => time_to_minutes (minutes_to_time n) == some n)) = true := by decide

/-- `time_to_minutes (minutes_to_time n) = n` for every minutes value of one
day. -/
theorem roundtrip (n : Nat) (hn : n < 1440) :
    time_to_minutes (minutes_to_time n) = some n := by
  have h := List.all_eq_true.mp roundtrip_all n (List.mem_range.mpr hn)
  exact eq_of_beq h

/-! ### Python's stable sort -/

/-- Stable insertion of `x` into a list: `x` goes before the first element
not strictly below it, preserving the relative order of ties. -/
def pyinsert {α : Type} (le : α → α → Bool) (x : α) : List α → List α
  | [] => [x]
  | y :: ys => if le x y then x :: y :: ys else y :: pyinsert le x ys

/-- Python's stable `list.sort`, modelled as stable insertion sort (the
unique stable sort for a total preorder). -/
def pysort {α : Type} (le : α → α → Bool) : List α → List α
  | [] => []
  | x :: xs => pyinsert le x (pysort le xs)

theorem pyinsert_perm {α : Type} (le : α → α → Bool) (x : α) :
    ∀ (l : List α), (pyinsert le x l).Perm (x :: l) := by
  intro l
  induction l with
  | nil => simp [pyinsert]
  | cons y ys ih =>
    simp only [pyinsert]
    split
    · exact List.Perm.refl _
    · exact (List.Perm.cons y ih).trans (List.Perm.swap x y ys)

theorem pysort_perm {α : Type} (le : α → α → Bool) :
    ∀ (l : List α), (pysort le l).Perm l := by
  intro l
  induction l with
  | nil => simp [pysort]
  | cons x xs ih =>
    exact (pyinsert_perm le x (pysort le xs)).trans (List.Perm.cons x ih)

theorem pyinsert_sorted {α : Type} {le : α → α → Bool}
    (htrans : ∀ a b c, le a b = true → le b c = true → le a c = true)
    (htot : ∀ a b, le a b = true ∨ le b a = true) (x : α) :
    ∀ {l : List α}, l.Pairwise (fun a b => le a b = true) →
    (pyinsert le x l).Pairwise (fun a b => le a b = true) := by
  intro l
  induction l with
  | nil =>
    intro _
    simp [pyinsert]
  | cons y ys ih =>
    intro hs
    obtain ⟨hy, hys⟩ := List.pairwise_cons.mp hs
    simp only [pyinsert]
    split
    · rename_i hxy
      rw [List.pairwise_cons]
      refine ⟨?_, hs⟩
      intro b hb
      rcases List.mem_cons.mp hb with rfl | hb
      · exact hxy
      · exact htrans x y b hxy (hy b hb)
    · rename_i hxy
      rw [List.pairwise_cons]
      refine ⟨?_, ih hys⟩
      intro b hb
      have hperm := pyinsert_perm le x ys
      rcases List.mem_cons.mp (hperm.mem_iff.mp hb) with rfl | hb2
      · rcases htot y b with h | h
        · exact h
        · simp only [Bool.not_eq_true] at hxy
          rw [hxy] at h
          exact absurd h (by simp)
      · exact hy b hb2

theorem pysort_sorted {α : Type} {le : α → α → Bool}
    (htrans : ∀ a b c, le a b = true → le b c = true → le a c = true)
    (htot : ∀ a b, le a b = true ∨ le b a = true) :
    ∀ (l : List α), (pysort le l).Pairwise (fun a b => le a b = true) := by
  intro l
  induction l with
  | nil => simp [pysort]
  | cons x xs ih => exact pyinsert_sorted htrans htot x ih

/-! ### Data model of `find_free_times.py` -/

/-- A class record as produced by `extract_classes` (a Python dict with keys
`course`, `day`, `start_time`, `end_time`, `type`; `type` is a Lean keyword,
hence the field name `ctype`). -/
structure ClassEntry where
  course : String
  day : String
  start_time : String
  end_time : String
  ctype : String
deriving DecidableEq, Repr

/-- A free-time gap (Python dict with keys `start`, `end`,
`duration_minutes`; `end` is a Lean keyword, hence the field name `stop`). -/
structure Gap where
  start : String
  stop : String
  duration_minutes : Int
deriving DecidableEq, Repr

/-- The fixed weekday list `['Mon', 'Tue', 'Wed', 'Thu', 'Fri']`. -/
def weekdays : List String := ["Mon", "Tue", "Wed", "Thu", "Fri"]

/-- `time_to_minutes` at a string the surrounding code has already
established to be parseable (the default is never exercised there). -/
def t2mD (s : String) : Nat := (time_to_minutes s).getD 0

/-- Both time fields of an entry parse; when an entry of a processed weekday
violates this, the Python code raises `ValueError` (from `strptime`). -/
def entryTimesOk (c : ClassEntry) : Bool :=
  (time_to_minutes c.start_time).isSome && (time_to_minutes c.end_time).isSome

/-- The `for i in range(len(day_classes) - 1)` loop of
`find_gaps_for_schedule`: gaps between consecutive classes. -/
def betweenGaps (min_gap_minutes : Int) : List ClassEntry → List Gap
  | a :: b :: rest =>
    (if (t2mD b.start_time : Int) - (t2mD a.end_time : Int) ≥ min_gap_minutes then
      [⟨a.end_time, b.start_time, (t2mD b.start_time : Int) - (t2mD a.end_time : Int)⟩]
     else []) ++ betweenGaps min_gap_minutes (b :: rest)
  | _ => []

def defaultEntry : ClassEntry := ⟨"", "", "", "", ""⟩

/-- Gap list for one weekday with a non-empty class list, after
`day_classes.sort(key=lambda x: time_to_minutes(x['start_time']))`:
the morning gap, the inter-class gaps and the evening gap. -/
def gapsForDay (day_classes : List ClassEntry) (min_gap_minutes : Int) : List Gap :=
  match pysort (fun a b => t2mD a.start_time ≤ t2mD b.start_time) day_classes with
  | [] => []
  | c :: cs =>
    let firstStart : Int := t2mD c.start_time
    let morning := firstStart - (t2mD "08:00 AM" : Int)
    let lastC := (c :: cs).getLastD defaultEntry
    let evening : Int := (t2mD "08:00 PM" : Int) - (t2mD lastC.end_time : Int)
    (if morning ≥ min_gap_minutes then [⟨"08:00 AM", c.start_time, morning⟩] else []) ++
    betweenGaps min_gap_minutes (c :: cs) ++
    (if evening ≥ min_gap_minutes then [⟨lastC.end_time, "08:00 PM", evening⟩] else [])

/-- `find_gaps_for_schedule` from `find_free_times.py`.  The Python code
parses the start and end time of every entry of every weekday (starts while
sorting, ends while emitting gaps), so it raises `ValueError` exactly when
some weekday entry has an unparseable time; that check is hoisted to the
front here since the `Except` result is all-or-nothing anyway. -/
def find_gaps_for_schedule (classes : List ClassEntry) (min_gap_minutes : Int) :
    Except PyErr (List (String × List Gap)) :=
  if weekdays.all (fun day => (classes.filter (fun c => c.day == day)).all entryTimesOk) then
    Except.ok (weekdays.map (fun day =>
      let day_classes := classes.filter (fun c => c.day == day)
      (day, if day_classes.isEmpty then
              [⟨"08:00 AM", "08:00 PM", 720⟩]
            else gapsForDay day_classes min_gap_minutes)))
  else Except.error PyErr.valueError

/-- One `gap1`×`gap2` pair inside the intersection loops of
`find_common_free_times`: the four `time_to_minutes` calls (any failure is a
raised `ValueError`), the overlap window, and the threshold filter. -/
def overlapOf (min_gap_minutes : Int) (gap1 gap2 : Gap) : Except PyErr (List Gap) :=
  match time_to_minutes gap1.start, time_to_minutes gap1.stop,
        time_to_minutes gap2.start, time_to_minutes gap2.stop with
  | some start1, some end1, some start2, some end2 =>
    let overlap_start := max start1 start2
    let overlap_end := min end1 end2
    let overlap_duration : Int := (overlap_end : Int) - (overlap_start : Int)
    if overlap_duration ≥ min_gap_minutes then
      Except.ok [⟨minutes_to_time (overlap_start : Int), minutes_to_time (overlap_end : Int),
        overlap_duration⟩]
    else Except.ok []
  | _, _, _, _ => Except.error PyErr.valueError

/-- Inner loop `for gap2 in other_gaps`. -/
def gap2Loop (min_gap_minutes : Int) (gap1 : Gap) : List Gap → Except PyErr (List Gap)
  | [] => Except.ok []
  | gap2 :: rest => do
    let xs ← overlapOf min_gap_minutes gap1 gap2
    let ys ← gap2Loop min_gap_minutes gap1 rest
    Except.ok (xs ++ ys)

/-- Outer loop `for gap1 in common_day_gaps`. -/
def gap1Loop (min_gap_minutes : Int) : List Gap → List Gap → Except PyErr (List Gap)
  | [], _ => Except.ok []
  | gap1 :: rest, other => do
    let xs ← gap2Loop min_gap_minutes gap1 other
    let ys ← gap1Loop min_gap_minutes rest other
    Except.ok (xs ++ ys)

/-- Fold `for other_gaps in day_gaps_all_schedules[1:]`. -/
def intersectFold (min_gap_minutes : Int) :
    List Gap → List (List Gap) → Except PyErr (List Gap)
  | common, [] => Except.ok common
  | common, other :: rest => do
    let common' ← gap1Loop min_gap_minutes common other
    intersectFold min_gap_minutes common' rest

/-- `schedule_gaps.get(day, [])`. -/
def dayGet (m : List (String × List Gap)) (day : String) : List Gap :=
  (m.lookup day).getD []

/-- Fold of the intersection over a day's gap lists across all schedules
(`if not day_gaps_all_schedules` selects the empty list, which cannot occur
when at least one schedule is supplied). -/
def intersectAll (min_gap_minutes : Int) (day : String) :
    List (List Gap) → Except PyErr (String × List Gap)
  | [] => Except.ok (day, ([] : List Gap))
  | first :: rest => do
    let common ← intersectFold min_gap_minutes first rest
    Except.ok (day, common)

/-- Body of `for day in days` in `find_common_free_times`: the day's gap
lists across all schedules, and their left fold of pairwise intersections. -/
def commonForDay (schedules_gaps : List (List (String × List Gap)))
    (min_gap_minutes : Int) (day : String) : Except PyErr (String × List Gap) :=
  intersectAll min_gap_minutes day (schedules_gaps.map (fun s => dayGet s day))

/-- The `for day in days` loop of `find_common_free_times`, building the
result dict in weekday order. -/
def dayLoop (schedules_gaps : List (List (String × List Gap)))
    (min_gap_minutes : Int) : List String → Except PyErr (List (String × List Gap))
  | [] => Except.ok []
  | day :: rest => do
    let entry ← commonForDay schedules_gaps min_gap_minutes day
    let others ← dayLoop schedules_gaps min_gap_minutes rest
    Except.ok (entry :: others)

/-- `find_common_free_times` from `find_free_times.py`. -/
def find_common_free_times (schedules_gaps : List (List (String × List Gap)))
    (min_gap_minutes : Int) : Except PyErr (List (String × List Gap)) :=
  if schedules_gaps.isEmpty then Except.ok [] else
  dayLoop schedules_gaps min_gap_minutes weekdays

/-! ### C3 — round trip of `minutes_to_time` after `time_to_minutes` -/

/-- C3 counterexample: `"9:00 AM"` is a valid 12-hour time string with
explicit AM/PM on a 30-minute boundary (it is exactly the label format the
grid detector produces, and `strptime` accepts it), yet the round trip
returns the zero-padded `"09:00 AM"`, a different string. -/
theorem C3_counterexample :
    time_to_minutes "9:00 AM" = some 540 ∧
    minutes_to_time 540 = "09:00 AM" ∧ "09:00 AM" ≠ "9:00 AM" := by decide

/-- C3, amended: for every time string in the implementation's canonical
zero-padded output format (i.e. every `minutes_to_time n` with `n` a
30-minute-aligned minutes value of one day),
`minutes_to_time (time_to_minutes x) = x`. -/
theorem C3_roundtrip (x : String) (n : Nat) (hn : n < 1440) (h30 : n % 30 = 0)
    (hx : x = minutes_to_time (n : Int)) :
    (time_to_minutes x).map (fun m => minutes_to_time (m : Int)) = some x := by
  subst hx
  rw [roundtrip n hn]
  rfl

/-- Witness for `C3_roundtrip` at `x = "09:30 AM"`, `n = 570`. -/
theorem C3_roundtrip_witness :
    (time_to_minutes "09:30 AM").map (fun m => minutes_to_time (m : Int)) =
      some "09:30 AM" := by
  have h := C3_roundtrip "09:30 AM" 570 (by decide) (by decide) (by decide)
  simpa using h

/-! ### C8 — concrete intersection example -/

/-- The two single-gap Monday schedules of C8. -/
def c8_G1 : List (String × List Gap) := [("Mon", [⟨"09:00 AM", "10:30 AM", 90⟩])]

def c8_G2 : List (String × List Gap) := [("Mon", [⟨"10:00 AM", "11:00 AM", 60⟩])]

/-- C8: intersecting Monday gaps 09:00–10:30 and 10:00–11:00 with
`min_gap_minutes = 30` yields exactly the 30-minute gap 10:00–10:30, and
with `min_gap_minutes = 31` yields no gap. -/
theorem C8_intersection :
    find_common_free_times [c8_G1, c8_G2] 30 =
      Except.ok [("Mon", [⟨"10:00 AM", "10:30 AM", 30⟩]),
        ("Tue", []), ("Wed", []), ("Thu", []), ("Fri", [])] ∧
    find_common_free_times [c8_G1, c8_G2] 31 =
      Except.ok [("Mon", []), ("Tue", []), ("Wed", []), ("Thu", []), ("Fri", [])] := by
  constructor <;> rfl

/-! ### C10 — weekday key domain of `find_gaps_for_schedule` -/

/-- Restricting the schedule to weekday entries first does not change the
per-day class lists the function works with. -/
theorem dayFilter_eq (classes : List ClassEntry) {day : String} (hd : day ∈ weekdays) :
    (classes.filter (fun c => weekdays.contains c.day)).filter (fun c => c.day == day) =
    classes.filter (fun c => c.day == day) := by
  rw [List.filter_filter]
  apply List.filter_congr
  intro c _
  by_cases h : c.day = day
  · subst h
    simp only [beq_self_eq_true, Bool.true_and]
    exact List.elem_iff.mpr hd
  · simp [h]

/-- C10: `find_gaps_for_schedule` returns a mapping whose keys are exactly
`Mon, Tue, Wed, Thu, Fri` in that order, and entries on other days never
influence the result (dropping them first yields the same result). -/
theorem C10_weekday_domain (classes : List ClassEntry) (min_gap_minutes : Int) :
    (∀ m, find_gaps_for_schedule classes min_gap_minutes = Except.ok m →
      m.map Prod.fst = weekdays) ∧
    find_gaps_for_schedule (classes.filter (fun c => weekdays.contains c.day))
        min_gap_minutes = find_gaps_for_schedule classes min_gap_minutes := by
  constructor
  · intro m hm
    unfold find_gaps_for_schedule at hm
    split at hm
    · simp only [Except.ok.injEq] at hm
      subst hm
      simp [weekdays]
    · simp at hm
  · have h1 := dayFilter_eq classes (show "Mon" ∈ weekdays by decide)
    have h2 := dayFilter_eq classes (show "Tue" ∈ weekdays by decide)
    have h3 := dayFilter_eq classes (show "Wed" ∈ weekdays by decide)
    have h4 := dayFilter_eq classes (show "Thu" ∈ weekdays by decide)
    have h5 := dayFilter_eq classes (show "Fri" ∈ weekdays by decide)
    unfold find_gaps_for_schedule
    simp only [weekdays] at h1 h2 h3 h4 h5 ⊢
    simp only [List.all_cons, List.all_nil, List.map_cons, List.map_nil]
    rw [h1, h2, h3, h4, h5]

/-- Witness for the hypothesis-bearing first conjunct of
`C10_weekday_domain`, at a schedule with a single Saturday entry. -/
theorem C10_weekday_domain_witness :
    ([("Mon", [⟨"08:00 AM", "08:00 PM", 720⟩]), ("Tue", [⟨"08:00 AM", "08:00 PM", 720⟩]),
      ("Wed", [⟨"08:00 AM", "08:00 PM", 720⟩]), ("Thu", [⟨"08:00 AM", "08:00 PM", 720⟩]),
      ("Fri", [⟨"08:00 AM", "08:00 PM", 720⟩])] :
        List (String × List Gap)).map Prod.fst = weekdays :=
  (C10_weekday_domain [⟨"HIKE 1000", "Sat", "09:00 AM", "10:00 AM", "Lecture"⟩] 30).1
    _ (by rfl)

/-! ### C9 — duration consistency of emitted gaps -/

/-- On a parseable string `t2mD` agrees with `time_to_minutes`. -/
theorem t2mD_spec {s : String} (h : (time_to_minutes s).isSome = true) :
    time_to_minutes s = some (t2mD s) := by
  unfold t2mD
  rcases hq : time_to_minutes s with _ | v
  · rw [hq] at h
    simp at h
  · rfl

/-- Parseable strings denote minutes values below 1440. -/
theorem t2mD_lt {s : String} (h : (time_to_minutes s).isSome = true) : t2mD s < 1440 :=
  time_to_minutes_lt (t2mD_spec h)

/-- Duration-consistency of a gap record: both time fields parse and the
`duration_minutes` field equals the difference of the parsed end and start
times. -/
def GapDurOk (gap : Gap) : Prop :=
  (time_to_minutes gap.start).isSome = true ∧ (time_to_minutes gap.stop).isSome = true ∧
  gap.duration_minutes = (t2mD gap.stop : Int) - (t2mD gap.start : Int)

instance (gap : Gap) : Decidable (GapDurOk gap) := by
  unfold GapDurOk
  infer_instance

theorem betweenGaps_durOk {g : Int} : ∀ {l : List ClassEntry},
    (∀ c ∈ l, entryTimesOk c = true) → ∀ gap ∈ betweenGaps g l, GapDurOk gap := by
  intro l
  induction l with
  | nil =>
    intro _ gap hgap
    simp [betweenGaps] at hgap
  | cons a rest ih =>
    intro hok gap hgap
    match rest with
    | [] => simp [betweenGaps] at hgap
    | b :: rest2 =>
      simp only [betweenGaps] at hgap
      rcases List.mem_append.mp hgap with hg | hg
      · have ha : entryTimesOk a = true := hok a (by simp)
        have hb : entryTimesOk b = true := hok b (by simp)
        simp only [entryTimesOk, Bool.and_eq_true] at ha hb
        split at hg
        · simp only [List.mem_singleton] at hg
          subst hg
          exact ⟨ha.2, hb.1, rfl⟩
        · simp at hg
      · exact ih (fun c hc => hok c (List.mem_cons_of_mem a hc)) gap hg

/-- `(c :: cs).getLastD d` is a member of `c :: cs`. -/
theorem getLastD_cons_mem {α : Type} (c : α) (cs : List α) (d : α) :
    (c :: cs).getLastD d ∈ c :: cs := by
  induction cs generalizing c d with
  | nil => simp [List.getLastD]
  | cons b bs ih =>
    rw [List.getLastD_cons]
    exact List.mem_cons_of_mem c (ih b d)

theorem gapsForDay_durOk {dcs : List ClassEntry} {g : Int}
    (hok : ∀ c ∈ dcs, entryTimesOk c = true) :
    ∀ gap ∈ gapsForDay dcs g, GapDurOk gap := by
  intro gap hgap
  unfold gapsForDay at hgap
  have hperm := pysort_perm (fun a b : ClassEntry =>
    decide (t2mD a.start_time ≤ t2mD b.start_time)) dcs
  have hsok : ∀ c ∈ pysort (fun a b : ClassEntry =>
      decide (t2mD a.start_time ≤ t2mD b.start_time)) dcs,
      entryTimesOk c = true := fun c hc => hok c (hperm.mem_iff.mp hc)
  rcases hs : pysort (fun a b : ClassEntry =>
      decide (t2mD a.start_time ≤ t2mD b.start_time)) dcs
    with _ | ⟨c, cs⟩ <;> rw [hs] at hgap hsok
  · simp at hgap
  · simp only at hgap
    have hc : entryTimesOk c = true := hsok c (by simp)
    have hlast : entryTimesOk ((c :: cs).getLastD defaultEntry) = true :=
      hsok _ (getLastD_cons_mem c cs defaultEntry)
    simp only [entryTimesOk, Bool.and_eq_true] at hc hlast
    rcases List.mem_append.mp hgap with hg | hg
    · rcases List.mem_append.mp hg with hg2 | hg2
      · split at hg2
        · simp only [List.mem_singleton] at hg2
          subst hg2
          simp only [GapDurOk]
          exact ⟨by decide, hc.1, trivial⟩
        · simp at hg2
      · exact betweenGaps_durOk hsok gap hg2
    · split at hg
      · simp only [List.mem_singleton] at hg
        subst hg
        simp only [GapDurOk]
        exact ⟨hlast.2, by decide, trivial⟩
      · simp at hg

/-- First half of C9: every gap emitted by `find_gaps_for_schedule` is
duration-consistent. -/
theorem find_gaps_durOk {classes : List ClassEntry} {g : Int}
    {m : List (String × List Gap)}
    (hm : find_gaps_for_schedule classes g = Except.ok m) :
    ∀ d gs, (d, gs) ∈ m → ∀ gap ∈ gs, GapDurOk gap := by
  unfold find_gaps_for_schedule at hm
  split at hm
  · rename_i hall
    simp only [Except.ok.injEq] at hm
    subst hm
    intro d gs hdgs gap hgap
    rw [List.mem_map] at hdgs
    obtain ⟨day, hday, heq⟩ := hdgs
    simp only [Prod.mk.injEq] at heq
    obtain ⟨h1, h2⟩ := heq
    subst h1
    subst h2
    have hdayok : ∀ c ∈ classes.filter (fun c => c.day == day), entryTimesOk c = true := by
      have h := List.all_eq_true.mp hall day hday
      exact fun c hc => List.all_eq_true.mp h c hc
    split at hgap
    · simp only [List.mem_singleton] at hgap
      subst hgap
      exact ⟨by decide, by decide, by decide⟩
    · exact gapsForDay_durOk hdayok gap hgap
  · simp at hm

/-- Every gap built by the pairwise-overlap step is duration-consistent: its
time strings are canonical `minutes_to_time` outputs of the overlap bounds,
which parse back to those bounds. -/
theorem overlapOf_durOk {g : Int} {g1 g2 : Gap} {xs : List Gap}
    (h : overlapOf g g1 g2 = Except.ok xs) : ∀ gap ∈ xs, GapDurOk gap := by
  unfold overlapOf at h
  split at h
  · rename_i s1 e1 s2 e2 h1 h2 h3 h4
    have hs1 : s1 < 1440 := time_to_minutes_lt h1
    have he1 : e1 < 1440 := time_to_minutes_lt h2
    have hs2 : s2 < 1440 := time_to_minutes_lt h3
    have he2 : e2 < 1440 := time_to_minutes_lt h4
    dsimp only at h
    split at h
    · simp only [Except.ok.injEq] at h
      subst h
      intro gap hgap
      simp only [List.mem_singleton] at hgap
      subst hgap
      have hos : max s1 s2 < 1440 := by omega
      have hoe : min e1 e2 < 1440 := by omega
      have hrs := roundtrip (max s1 s2) hos
      have hre := roundtrip (min e1 e2) hoe
      refine ⟨?_, ?_, ?_⟩
      · simp only
        rw [hrs]
        rfl
      · simp only
        rw [hre]
        rfl
      · simp only [t2mD]
        rw [hrs, hre]
        rfl
    · simp only [Except.ok.injEq] at h
      subst h
      intro gap hgap
      simp at hgap
  · simp at h

theorem gap2Loop_durOk {g : Int} {gap1 : Gap} : ∀ {other : List Gap} {xs : List Gap},
    gap2Loop g gap1 other = Except.ok xs → ∀ x ∈ xs, GapDurOk x := by
  intro other
  induction other with
  | nil =>
    intro xs h
    simp only [gap2Loop, Except.ok.injEq] at h
    subst h
    intro x hx
    simp at hx
  | cons g2 rest ih =>
    intro xs h
    simp only [gap2Loop] at h
    rcases ho : overlapOf g gap1 g2 with e | ys <;> rw [ho] at h
    · simp [Except.bind, Bind.bind] at h
    · rcases hr : gap2Loop g gap1 rest with e | zs <;> rw [hr] at h
      · simp [Except.bind, Bind.bind] at h
      · simp only [Except.bind, Bind.bind, Except.ok.injEq] at h
        subst h
        intro x hx
        rcases List.mem_append.mp hx with hx | hx
        · exact overlapOf_durOk ho x hx
        · exact ih hr x hx

theorem gap1Loop_durOk {g : Int} : ∀ {common other : List Gap} {xs : List Gap},
    gap1Loop g common other = Except.ok xs → ∀ x ∈ xs, GapDurOk x := by
  intro common
  induction common with
  | nil =>
    intro other xs h
    simp only [gap1Loop, Except.ok.injEq] at h
    subst h
    intro x hx
    simp at hx
  | cons g1 rest ih =>
    intro other xs h
    simp only [gap1Loop] at h
    rcases ho : gap2Loop g g1 other with e | ys <;> rw [ho] at h
    · simp [Except.bind, Bind.bind] at h
    · rcases hr : gap1Loop g rest other with e | zs <;> rw [hr] at h
      · simp [Except.bind, Bind.bind] at h
      · simp only [Except.bind, Bind.bind, Except.ok.injEq] at h
        subst h
        intro x hx
        rcases List.mem_append.mp hx with hx | hx
        · exact gap2Loop_durOk ho x hx
        · exact ih hr x hx

/-- The intersection fold preserves duration-consistency: the start list is
passed through unchanged (so must satisfy the invariant itself), and every
later stage builds only duration-consistent gaps. -/
theorem intersectFold_durOk {g : Int} : ∀ {others : List (List Gap)} {common xs : List Gap},
    (∀ x ∈ common, GapDurOk x) → intersectFold g common others = Except.ok xs →
    ∀ x ∈ xs, GapDurOk x := by
  intro others
  induction others with
  | nil =>
    intro common xs hc h
    simp only [intersectFold, Except.ok.injEq] at h
    subst h
    exact hc
  | cons other rest ih =>
    intro common xs hc h
    simp only [intersectFold] at h
    rcases ho : gap1Loop g common other with e | ys <;> rw [ho] at h
    · simp [Except.bind, Bind.bind] at h
    · simp only [Except.bind, Bind.bind] at h
      exact ih (gap1Loop_durOk ho) h

/-- A successful association-list lookup returns a binding of the list. -/
theorem lookup_mem : ∀ {l : List (String × List Gap)} {k : String} {v : List Gap},
    l.lookup k = some v → (k, v) ∈ l := by
  intro l
  induction l with
  | nil =>
    intro k v h
    simp [List.lookup] at h
  | cons p rest ih =>
    intro k v h
    obtain ⟨k', v'⟩ := p
    simp only [List.lookup] at h
    by_cases hk : k = k'
    · subst hk
      simp only [beq_self_eq_true, Option.some.injEq] at h
      subst h
      exact List.mem_cons_self _ _
    · rw [beq_false_of_ne hk] at h
      exact List.mem_cons_of_mem _ (ih h)

/-- The gaps a schedule contributes for one day are gaps of that schedule's
mapping (or the empty default). -/
theorem dayGet_sub {sched : List (String × List Gap)} {day : String}
    (hs : ∀ p ∈ sched, ∀ gap ∈ p.2, GapDurOk gap) :
    ∀ gap ∈ dayGet sched day, GapDurOk gap := by
  unfold dayGet
  rcases hq : sched.lookup day with _ | gs
  · intro gap hgap
    simp at hgap
  · exact hs (day, gs) (lookup_mem hq)

theorem commonForDay_durOk {sg : List (List (String × List Gap))} {g : Int}
    {day : String} {entry : String × List Gap}
    (hin : ∀ sched ∈ sg, ∀ p ∈ sched, ∀ gap ∈ p.2, GapDurOk gap)
    (h : commonForDay sg g day = Except.ok entry) :
    ∀ gap ∈ entry.2, GapDurOk gap := by
  unfold commonForDay at h
  rcases hm : sg.map (fun s => dayGet s day) with _ | ⟨first, rest⟩ <;> rw [hm] at h
  · simp only [intersectAll, Except.ok.injEq] at h
    subst h
    intro gap hgap
    simp at hgap
  · simp only [intersectAll] at h
    rcases hf : intersectFold g first rest with e | common <;> rw [hf] at h
    · simp [Except.bind, Bind.bind] at h
    · simp only [Except.bind, Bind.bind, Except.ok.injEq] at h
      subst h
      have hfirst : ∀ gap ∈ first, GapDurOk gap := by
        have : first ∈ sg.map (fun s => dayGet s day) := by
          rw [hm]
          exact List.mem_cons_self _ _
        rw [List.mem_map] at this
        obtain ⟨sched, hsched, hEq⟩ := this
        subst hEq
        exact dayGet_sub (hin sched hsched)
      exact intersectFold_durOk hfirst hf

theorem dayLoop_durOk {sg : List (List (String × List Gap))} {g : Int} :
    ∀ {days : List String} {m : List (String × List Gap)},
    (∀ sched ∈ sg, ∀ p ∈ sched, ∀ gap ∈ p.2, GapDurOk gap) →
    dayLoop sg g days = Except.ok m →
    ∀ d gs, (d, gs) ∈ m → ∀ gap ∈ gs, GapDurOk gap := by
  intro days
  induction days with
  | nil =>
    intro m hin h
    simp only [dayLoop, Except.ok.injEq] at h
    subst h
    intro d gs hdgs
    simp at hdgs
  | cons day rest ih =>
    intro m hin h
    simp only [dayLoop] at h
    rcases hc : commonForDay sg g day with e | entry <;> rw [hc] at h
    · simp [Except.bind, Bind.bind] at h
    · rcases hr : dayLoop sg g rest with e | others <;> rw [hr] at h
      · simp [Except.bind, Bind.bind] at h
      · simp only [Except.bind, Bind.bind, Except.ok.injEq] at h
        subst h
        intro d gs hdgs gap hgap
        rcases List.mem_cons.mp hdgs with heq | hmem
        · subst heq
          exact commonForDay_durOk hin hc gap hgap
        · exact ih hin hr d gs hmem gap hgap

/-- C9, amended: every gap emitted by `find_gaps_for_schedule` is
duration-consistent, and `find_common_free_times` preserves
duration-consistency of its inputs (a single schedule's gap lists are passed
through unexamined, so consistency of the output requires it of the input). -/
theorem C9_duration_consistency :
    (∀ (classes : List ClassEntry) (g : Int) (m : List (String × List Gap)),
      find_gaps_for_schedule classes g = Except.ok m →
      ∀ d gs, (d, gs) ∈ m → ∀ gap ∈ gs, GapDurOk gap) ∧
    (∀ (sg : List (List (String × List Gap))) (g : Int) (m : List (String × List Gap)),
      (∀ sched ∈ sg, ∀ p ∈ sched, ∀ gap ∈ p.2, GapDurOk gap) →
      find_common_free_times sg g = Except.ok m →
      ∀ d gs, (d, gs) ∈ m → ∀ gap ∈ gs, GapDurOk gap) := by
  constructor
  · exact fun classes g m hm => find_gaps_durOk hm
  · intro sg g m hin h
    unfold find_common_free_times at h
    split at h
    · simp only [Except.ok.injEq] at h
      subst h
      intro d gs hdgs
      simp at hdgs
    · exact dayLoop_durOk hin h

/-- Witness for `C9_duration_consistency` at concrete inputs: the empty
schedule's Monday all-day gap, and a self-intersection output gap. -/
theorem C9_duration_consistency_witness :
    GapDurOk ⟨"08:00 AM", "08:00 PM", 720⟩ ∧ GapDurOk ⟨"10:00 AM", "10:30 AM", 30⟩ := by
  constructor
  · exact C9_duration_consistency.1 [] 30
      [("Mon", [⟨"08:00 AM", "08:00 PM", 720⟩]), ("Tue", [⟨"08:00 AM", "08:00 PM", 720⟩]),
       ("Wed", [⟨"08:00 AM", "08:00 PM", 720⟩]), ("Thu", [⟨"08:00 AM", "08:00 PM", 720⟩]),
       ("Fri", [⟨"08:00 AM", "08:00 PM", 720⟩])] (by rfl)
      "Mon" [⟨"08:00 AM", "08:00 PM", 720⟩] (by simp) ⟨"08:00 AM", "08:00 PM", 720⟩ (by simp)
  · exact C9_duration_consistency.2 [c8_G1, c8_G2] 30
      [("Mon", [⟨"10:00 AM", "10:30 AM", 30⟩]), ("Tue", []), ("Wed", []), ("Thu", []),
       ("Fri", [])]
      (by decide) C8_intersection.1 "Mon" [⟨"10:00 AM", "10:30 AM", 30⟩] (by simp)
      ⟨"10:00 AM", "10:30 AM", 30⟩ (by simp)

/-- C9 counterexample: with a single schedule, `find_common_free_times`
passes the input gap lists through unchanged, so a gap whose
`duration_minutes` field disagrees with its time strings (999 instead of
60) is emitted as-is. -/
theorem C9_counterexample :
    find_common_free_times [[("Mon", [⟨"09:00 AM", "10:00 AM", 999⟩])]] 30 =
      Except.ok [("Mon", [⟨"09:00 AM", "10:00 AM", 999⟩]),
        ("Tue", []), ("Wed", []), ("Thu", []), ("Fri", [])] ∧
    ¬ GapDurOk ⟨"09:00 AM", "10:00 AM", 999⟩ := by
  constructor
  · rfl
  · decide

/-! ### C1 — shape of the per-day gap lists of `find_gaps_for_schedule` -/

/-- Parsed start minutes of a gap. -/
def gapS (gap : Gap) : Nat := t2mD gap.start

/-- Parsed end minutes of a gap. -/
def gapE (gap : Gap) : Nat := t2mD gap.stop

/-- An entry whose times parse and whose class lies within the 08:00–20:00
window with start ≤ end. -/
def GoodEntry (c : ClassEntry) : Prop :=
  entryTimesOk c = true ∧ 480 ≤ t2mD c.start_time ∧
  t2mD c.start_time ≤ t2mD c.end_time ∧ t2mD c.end_time ≤ 1200

instance (c : ClassEntry) : Decidable (GoodEntry c) := by
  unfold GoodEntry
  infer_instance

/-- The gap-list shape asserted by C1: consecutive-disjoint in order (which
with per-gap `start ≤ end` yields pairwise non-overlap and ascending start
order), per-gap duration at least the threshold, and containment in the
08:00–20:00 window. -/
def GapListOk (g : Int) (gaps : List Gap) : Prop :=
  gaps.Pairwise (fun a b => gapE a ≤ gapS b) ∧
  ∀ gap ∈ gaps, gap.duration_minutes ≥ g ∧ 480 ≤ gapS gap ∧
    gapS gap ≤ gapE gap ∧ gapE gap ≤ 1200

instance (g : Int) (gaps : List Gap) : Decidable (GapListOk g gaps) := by
  unfold GapListOk
  infer_instance

/-- Every gap between consecutive sorted classes starts no earlier than the
first class's start. -/
theorem betweenGaps_start_ge {g : Int} : ∀ {a : ClassEntry} {l : List ClassEntry},
    ((a :: l).Pairwise fun x y => t2mD x.start_time ≤ t2mD y.start_time) →
    (∀ c ∈ a :: l, GoodEntry c) →
    ∀ gap ∈ betweenGaps g (a :: l), t2mD a.start_time ≤ gapS gap := by
  intro a l
  induction l generalizing a with
  | nil =>
    intro _ _ gap hgap
    simp [betweenGaps] at hgap
  | cons b l2 ih =>
    intro hsort hgood gap hgap
    simp only [betweenGaps] at hgap
    rcases List.mem_append.mp hgap with hg | hg
    · split at hg
      · simp only [List.mem_singleton] at hg
        subst hg
        have ha := hgood a (by simp)
        simp only [gapS]
        exact le_trans ha.2.2.1 (le_refl _)
      · simp at hg
    · have hab : t2mD a.start_time ≤ t2mD b.start_time :=
        (List.pairwise_cons.mp hsort).1 b (by simp)
      exact le_trans hab
        (ih (List.pairwise_cons.mp hsort).2
          (fun c hc => hgood c (List.mem_cons_of_mem a hc)) gap hg)

/-- Every gap between consecutive classes ends at some class's start, hence
below any upper bound on the start keys. -/
theorem betweenGaps_stop_le {g : Int} {M : Nat} : ∀ {l : List ClassEntry},
    (∀ c ∈ l, t2mD c.start_time ≤ M) →
    ∀ gap ∈ betweenGaps g l, gapE gap ≤ M := by
  intro l
  induction l with
  | nil =>
    intro _ gap hgap
    simp [betweenGaps] at hgap
  | cons a rest ih =>
    intro hM gap hgap
    match rest with
    | [] => simp [betweenGaps] at hgap
    | b :: l2 =>
      simp only [betweenGaps] at hgap
      rcases List.mem_append.mp hgap with hg | hg
      · split at hg
        · simp only [List.mem_singleton] at hg
          subst hg
          exact hM b (by simp)
        · simp at hg
      · exact ih (fun c hc => hM c (List.mem_cons_of_mem a hc)) gap hg

/-- The inter-class gaps are consecutively disjoint. -/
theorem betweenGaps_pairwise {g : Int} : ∀ {l : List ClassEntry},
    (l.Pairwise fun x y => t2mD x.start_time ≤ t2mD y.start_time) →
    (∀ c ∈ l, GoodEntry c) →
    (betweenGaps g l).Pairwise (fun x y => gapE x ≤ gapS y) := by
  intro l
  induction l with
  | nil =>
    intro _ _
    simp [betweenGaps]
  | cons a rest ih =>
    intro hsort hgood
    match rest with
    | [] => simp [betweenGaps]
    | b :: l2 =>
      simp only [betweenGaps]
      rw [List.pairwise_append]
      have htail := (List.pairwise_cons.mp hsort).2
      have hgtail : ∀ c ∈ b :: l2, GoodEntry c :=
        fun c hc => hgood c (List.mem_cons_of_mem a hc)
      refine ⟨?_, ih htail hgtail, ?_⟩
      · split
        · simp
        · simp
      · intro x hx y hy
        have hx1 : gapE x = t2mD b.start_time := by
          split at hx
          · simp only [List.mem_singleton] at hx
            subst hx
            rfl
          · simp at hx
        rw [hx1]
        exact betweenGaps_start_ge htail hgtail y hy

/-- Per-gap window and duration facts for the inter-class gaps. -/
theorem betweenGaps_props {g : Int} (hg0 : 0 ≤ g) : ∀ {l : List ClassEntry},
    (∀ c ∈ l, GoodEntry c) →
    ∀ gap ∈ betweenGaps g l, gap.duration_minutes ≥ g ∧ 480 ≤ gapS gap ∧
      gapS gap ≤ gapE gap ∧ gapE gap ≤ 1200 := by
  intro l
  induction l with
  | nil =>
    intro _ gap hgap
    simp [betweenGaps] at hgap
  | cons a rest ih =>
    intro hgood gap hgap
    match rest with
    | [] => simp [betweenGaps] at hgap
    | b :: l2 =>
      simp only [betweenGaps] at hgap
      rcases List.mem_append.mp hgap with hg | hg
      · split at hg
        · rename_i hcond
          simp only [List.mem_singleton] at hg
          subst hg
          obtain ⟨-, ha1, ha2, ha3⟩ := hgood a (by simp)
          obtain ⟨-, hb1, hb2, hb3⟩ := hgood b (by simp)
          simp only [gapS, gapE]
          refine ⟨hcond, ?_, ?_, ?_⟩ <;> omega
        · simp at hg
      · exact ih (fun c hc => hgood c (List.mem_cons_of_mem a hc)) gap hg

/-- In a list sorted by start key, every start key is bounded by the last
element's start key. -/
theorem sorted_le_getLastD : ∀ {l : List ClassEntry},
    (l.Pairwise fun x y => t2mD x.start_time ≤ t2mD y.start_time) →
    ∀ {d : ClassEntry} {x : ClassEntry}, x ∈ l →
    t2mD x.start_time ≤ t2mD (l.getLastD d).start_time := by
  intro l
  induction l with
  | nil =>
    intro _ d x hx
    simp at hx
  | cons a rest ih =>
    intro hsort d x hx
    rw [List.getLastD_cons]
    match rest with
    | [] =>
      simp only [List.mem_singleton] at hx
      subst hx
      simp [List.getLastD]
    | b :: l2 =>
      rcases List.mem_cons.mp hx with heq | hmem
      · subst heq
        have hlast_mem := getLastD_cons_mem b l2 x
        exact (List.pairwise_cons.mp hsort).1 _ hlast_mem
      · exact ih (List.pairwise_cons.mp hsort).2 hmem

/-- The sort of `find_gaps_for_schedule` leaves the start keys in ascending
(pairwise) order. -/
theorem pysort_key_sorted (l : List ClassEntry) :
    (pysort (fun a b : ClassEntry =>
      decide (t2mD a.start_time ≤ t2mD b.start_time)) l).Pairwise
      (fun a b => t2mD a.start_time ≤ t2mD b.start_time) := by
  have h := @pysort_sorted ClassEntry
    (fun a b : ClassEntry => decide (t2mD a.start_time ≤ t2mD b.start_time))
    (fun a b c hab hbc => by
      simp only [decide_eq_true_eq] at hab hbc ⊢
      omega)
    (fun a b => by
      simp only [decide_eq_true_eq]
      omega) l
  exact h.imp (fun hab => by simpa using hab)

/-- The per-day gap list of a non-empty, well-formed class list satisfies the
C1 shape. -/
theorem gapsForDay_ok {dcs : List ClassEntry} {g : Int} (hg0 : 0 ≤ g)
    (hgood : ∀ c ∈ dcs, GoodEntry c) : GapListOk g (gapsForDay dcs g) := by
  unfold gapsForDay
  have hperm := pysort_perm (fun a b : ClassEntry =>
    decide (t2mD a.start_time ≤ t2mD b.start_time)) dcs
  have hsgood : ∀ c ∈ pysort (fun a b : ClassEntry =>
      decide (t2mD a.start_time ≤ t2mD b.start_time)) dcs,
      GoodEntry c := fun c hc => hgood c (hperm.mem_iff.mp hc)
  have hsort := pysort_key_sorted dcs
  rcases hs : pysort (fun a b : ClassEntry =>
      decide (t2mD a.start_time ≤ t2mD b.start_time)) dcs
    with _ | ⟨c, cs⟩ <;> rw [hs] at hsgood hsort
  · exact ⟨List.Pairwise.nil, by intro gap hgap; simp at hgap⟩
  · simp only
    have hc := hsgood c (by simp)
    have hlastmem := getLastD_cons_mem c cs defaultEntry
    have hlast := hsgood _ hlastmem
    have hclast : t2mD c.start_time ≤ t2mD ((c :: cs).getLastD defaultEntry).start_time :=
      sorted_le_getLastD hsort (by simp)
    have hBstart := betweenGaps_start_ge (g := g) hsort hsgood
    have hBstop := betweenGaps_stop_le (g := g)
      (M := t2mD ((c :: cs).getLastD defaultEntry).start_time)
      (fun x hx => sorted_le_getLastD hsort hx)
    have hBpair := betweenGaps_pairwise (g := g) hsort hsgood
    have hBprops := betweenGaps_props hg0 hsgood
    obtain ⟨-, hc1, hc2, hc3⟩ := hc
    obtain ⟨-, hl1, hl2, hl3⟩ := hlast
    constructor
    · rw [List.pairwise_append, List.pairwise_append]
      refine ⟨⟨?_, hBpair, ?_⟩, ?_, ?_⟩
      · split <;> simp
      · -- morning gap before every inter-class gap
        intro x hx y hy
        have hx1 : gapE x = t2mD c.start_time := by
          split at hx
          · simp only [List.mem_singleton] at hx
            subst hx
            rfl
          · simp at hx
        rw [hx1]
        exact hBstart y hy
      · split <;> simp
      · -- everything before the evening gap
        intro x hx y hy
        have hy1 : gapS y = t2mD ((c :: cs).getLastD defaultEntry).end_time := by
          split at hy
          · simp only [List.mem_singleton] at hy
            subst hy
            rfl
          · simp at hy
        rw [hy1]
        rcases List.mem_append.mp hx with hx2 | hx2
        · have hx1 : gapE x = t2mD c.start_time := by
            split at hx2
            · simp only [List.mem_singleton] at hx2
              subst hx2
              rfl
            · simp at hx2
          rw [hx1]
          omega
        · have := hBstop x hx2
          omega
    · intro gap hgap
      rcases List.mem_append.mp hgap with hg | hg
      · rcases List.mem_append.mp hg with hg2 | hg2
        · split at hg2
          · rename_i hcond
            simp only [List.mem_singleton] at hg2
            subst hg2
            simp only [gapS, gapE]
            have h480 : t2mD "08:00 AM" = 480 := by decide
            rw [h480] at hcond ⊢
            refine ⟨hcond, by omega, by omega, by omega⟩
          · simp at hg2
        · exact hBprops gap hg2
      · split at hg
        · rename_i hcond
          simp only [List.mem_singleton] at hg
          subst hg
          simp only [gapS, gapE]
          have h1200 : t2mD "08:00 PM" = 1200 := by decide
          rw [h1200] at hcond ⊢
          refine ⟨hcond, by omega, by omega, by omega⟩
        · simp at hg

/-- C1, amended: for schedules whose entries lie within the 08:00–20:00
window with start ≤ end, and thresholds `0 ≤ min_gap_minutes ≤ 720`, every
per-day gap list is consecutively disjoint (hence pairwise non-overlapping
and ascending by start), each gap has duration at least the threshold, and
all gaps lie within the window. -/
theorem C1_gap_shape (classes : List ClassEntry) (g : Int) (hg0 : 0 ≤ g) (hg720 : g ≤ 720)
    (hgood : ∀ c ∈ classes, GoodEntry c) :
    ∀ m, find_gaps_for_schedule classes g = Except.ok m →
      ∀ d gs, (d, gs) ∈ m → GapListOk g gs := by
  intro m hm d gs hdgs
  unfold find_gaps_for_schedule at hm
  split at hm
  · simp only [Except.ok.injEq] at hm
    subst hm
    rw [List.mem_map] at hdgs
    obtain ⟨day, hday, heq⟩ := hdgs
    simp only [Prod.mk.injEq] at heq
    obtain ⟨h1, h2⟩ := heq
    subst h1
    subst h2
    split
    · constructor
      · simp
      · intro gap hgap
        simp only [List.mem_singleton] at hgap
        subst hgap
        refine ⟨by simp only; omega, ?_, ?_, ?_⟩ <;> simp only [gapS, gapE] <;> decide
    · exact gapsForDay_ok hg0 (fun c hc => hgood c (List.mem_filter.mp hc).1)
  · simp at hm

/-- Witness for `C1_gap_shape`: a single Monday class 09:00–10:00 with a
30-minute threshold yields the shape-correct Monday gaps
08:00–09:00 and 10:00–20:00. -/
theorem C1_gap_shape_witness :
    GapListOk 30 [⟨"08:00 AM", "09:00 AM", 60⟩, ⟨"10:00 AM", "08:00 PM", 600⟩] :=
  C1_gap_shape [⟨"COMP 1633", "Mon", "09:00 AM", "10:00 AM", "Lecture"⟩] 30
    (by decide) (by decide) (by decide)
    [("Mon", [⟨"08:00 AM", "09:00 AM", 60⟩, ⟨"10:00 AM", "08:00 PM", 600⟩]),
     ("Tue", [⟨"08:00 AM", "08:00 PM", 720⟩]), ("Wed", [⟨"08:00 AM", "08:00 PM", 720⟩]),
     ("Thu", [⟨"08:00 AM", "08:00 PM", 720⟩]), ("Fri", [⟨"08:00 AM", "08:00 PM", 720⟩])]
    (by rfl) "Mon" [⟨"08:00 AM", "09:00 AM", 60⟩, ⟨"10:00 AM", "08:00 PM", 600⟩]
    (by simp)

/-- C1 counterexample: for the empty schedule the all-day 720-minute gap is
emitted without any threshold check, so with `min_gap_minutes = 721` the
returned Monday list contains a gap shorter than the threshold, refuting
"each of duration ≥ min_gap_minutes" as universally stated. -/
theorem C1_counterexample :
    find_gaps_for_schedule [] 721 =
      Except.ok [("Mon", [⟨"08:00 AM", "08:00 PM", 720⟩]),
        ("Tue", [⟨"08:00 AM", "08:00 PM", 720⟩]), ("Wed", [⟨"08:00 AM", "08:00 PM", 720⟩]),
        ("Thu", [⟨"08:00 AM", "08:00 PM", 720⟩]), ("Fri", [⟨"08:00 AM", "08:00 PM", 720⟩])] ∧
    ¬ GapListOk 721 [⟨"08:00 AM", "08:00 PM", 720⟩] := by
  constructor
  · rfl
  · decide

/-! ### C5 — intersecting a schedule with itself -/

/-- A gap record in canonical form relative to `min_gap_minutes`: both time
strings are `minutes_to_time` outputs, the duration field is consistent, and
the gap is at least the threshold long. -/
def CanonGap (min_gap_minutes : Int) (gap : Gap) : Prop :=
  (time_to_minutes gap.start).isSome = true ∧ (time_to_minutes gap.stop).isSome = true ∧
  minutes_to_time (t2mD gap.start : Int) = gap.start ∧
  minutes_to_time (t2mD gap.stop : Int) = gap.stop ∧
  gap.duration_minutes = (t2mD gap.stop : Int) - (t2mD gap.start : Int) ∧
  (t2mD gap.stop : Int) - (t2mD gap.start : Int) ≥ min_gap_minutes

instance (g : Int) (gap : Gap) : Decidable (CanonGap g gap) := by
  unfold CanonGap
  infer_instance

/-- Intersecting a canonical gap with itself reproduces it exactly. -/
theorem overlapOf_self {g : Int} {gap : Gap} (hc : CanonGap g gap) :
    overlapOf g gap gap = Except.ok [gap] := by
  obtain ⟨h1, h2, h3, h4, h5, h6⟩ := hc
  unfold overlapOf
  rw [t2mD_spec h1, t2mD_spec h2]
  simp only [Nat.max_self, Nat.min_self]
  rw [if_pos h6]
  rw [h3, h4]
  congr 1
  rw [← h5]

/-- Intersecting two canonical, non-overlapping gaps yields nothing when the
threshold is positive. -/
theorem overlapOf_disjoint {g : Int} {g1 g2 : Gap} (hg : 0 < g)
    (hc1 : CanonGap g g1) (hc2 : CanonGap g g2)
    (hnov : gapE g1 ≤ gapS g2 ∨ gapE g2 ≤ gapS g1) :
    overlapOf g g1 g2 = Except.ok [] := by
  obtain ⟨h1, h2, -, -, -, -⟩ := hc1
  obtain ⟨h3, h4, -, -, -, -⟩ := hc2
  unfold overlapOf
  rw [t2mD_spec h1, t2mD_spec h2, t2mD_spec h3, t2mD_spec h4]
  simp only [gapS, gapE] at hnov
  dsimp only
  rw [if_neg]
  simp only [not_le]
  have hmin : min (t2mD g1.stop) (t2mD g2.stop) ≤ t2mD g1.stop := Nat.min_le_left _ _
  have hmin2 : min (t2mD g1.stop) (t2mD g2.stop) ≤ t2mD g2.stop := Nat.min_le_right _ _
  have hmax : t2mD g1.start ≤ max (t2mD g1.start) (t2mD g2.start) := Nat.le_max_left _ _
  have hmax2 : t2mD g2.start ≤ max (t2mD g1.start) (t2mD g2.start) := Nat.le_max_right _ _
  rcases hnov with h | h <;> omega

/-- When a gap overlaps nothing in the other list, the inner loop emits
nothing. -/
theorem gap2Loop_dead {g : Int} {g1 : Gap} : ∀ {other : List Gap},
    (∀ x ∈ other, overlapOf g g1 x = Except.ok []) →
    gap2Loop g g1 other = Except.ok [] := by
  intro other
  induction other with
  | nil => intro _; rfl
  | cons g2 rest ih =>
    intro hdead
    have h1 := hdead g2 (by simp)
    have h2 := ih (fun x hx => hdead x (List.mem_cons_of_mem g2 hx))
    simp only [gap2Loop, h1, h2]
    rfl

/-- When a gap overlaps exactly its own occurrence in the other list, the
inner loop emits exactly that gap. -/
theorem gap2Loop_point {g : Int} {g1 : Gap} : ∀ {pre post : List Gap},
    (∀ x ∈ pre, overlapOf g g1 x = Except.ok []) →
    (∀ x ∈ post, overlapOf g g1 x = Except.ok []) →
    overlapOf g g1 g1 = Except.ok [g1] →
    gap2Loop g g1 (pre ++ g1 :: post) = Except.ok [g1] := by
  intro pre
  induction pre with
  | nil =>
    intro post _ hpost hself
    have h2 := gap2Loop_dead hpost
    simp only [List.nil_append, gap2Loop, hself, h2]
    rfl
  | cons p pre' ih =>
    intro post hpre hpost hself
    have h1 := hpre p (by simp)
    have h2 := ih (fun x hx => hpre x (List.mem_cons_of_mem p hx)) hpost hself
    simp only [List.cons_append, gap2Loop, List.append_eq, h1, h2]
    rfl

/-- The outer loop is the identity when every element self-selects. -/
theorem gap1Loop_id {g : Int} {L : List Gap} : ∀ {C : List Gap},
    (∀ x ∈ C, gap2Loop g x L = Except.ok [x]) →
    gap1Loop g C L = Except.ok C := by
  intro C
  induction C with
  | nil => intro _; rfl
  | cons c rest ih =>
    intro hsel
    have h1 := hsel c (by simp)
    have h2 := ih (fun x hx => hsel x (List.mem_cons_of_mem c hx))
    simp only [gap1Loop, h1, h2]
    rfl

/-- Self-intersection of a canonical, pairwise non-overlapping gap list is
the identity. -/
theorem gap1Loop_self {g : Int} (hg : 0 < g) {L : List Gap}
    (hcanon : ∀ x ∈ L, CanonGap g x)
    (hnov : L.Pairwise (fun a b => gapE a ≤ gapS b ∨ gapE b ≤ gapS a)) :
    gap1Loop g L L = Except.ok L := by
  apply gap1Loop_id
  intro x hx
  obtain ⟨pre, post, hsplit⟩ := List.append_of_mem hx
  subst hsplit
  rw [List.pairwise_append] at hnov
  obtain ⟨hp1, hp2, hcross⟩ := hnov
  obtain ⟨hhead, -⟩ := List.pairwise_cons.mp hp2
  apply gap2Loop_point
  · intro y hy
    exact overlapOf_disjoint hg (hcanon x hx) (hcanon y (by simp [hy]))
      (Or.symm (hcross y hy x (by simp)))
  · intro y hy
    exact overlapOf_disjoint hg (hcanon x hx)
      (hcanon y (by simp [List.mem_cons_of_mem, hy])) (hhead y hy)
  · exact overlapOf_self (hcanon x hx)

/-- `dayLoop` of the two-copy schedule list returns each day's own gaps. -/
theorem dayLoop_self {G : List (String × List Gap)} {g : Int} (hg : 0 < g) :
    ∀ {days : List String},
    (∀ day ∈ days, ∀ gap ∈ dayGet G day, CanonGap g gap) →
    (∀ day ∈ days, (dayGet G day).Pairwise
      (fun a b => gapE a ≤ gapS b ∨ gapE b ≤ gapS a)) →
    dayLoop [G, G] g days = Except.ok (days.map (fun day => (day, dayGet G day))) := by
  intro days
  induction days with
  | nil =>
    intro _ _
    rfl
  | cons day rest ih =>
    intro hcanon hnov
    have h1 := gap1Loop_self hg (hcanon day (by simp)) (hnov day (by simp))
    have h2 := ih (fun d hd => hcanon d (List.mem_cons_of_mem day hd))
      (fun d hd => hnov d (List.mem_cons_of_mem day hd))
    simp only [dayLoop, commonForDay, List.map_cons, List.map_nil, intersectAll,
      intersectFold, h1, h2]
    rfl

/-- C5, amended: for a per-day gap mapping whose weekday gaps are canonical
records (`minutes_to_time`-formatted time strings, consistent duration
field), each at least `min_gap_minutes` long with `min_gap_minutes > 0`, and
pairwise non-overlapping within each day, intersecting the schedule with
itself returns exactly its own gap list for each weekday. -/
theorem C5_self_intersection (G : List (String × List Gap)) (g : Int) (hg : 0 < g)
    (hcanon : ∀ day ∈ weekdays, ∀ gap ∈ dayGet G day, CanonGap g gap)
    (hnov : ∀ day ∈ weekdays, (dayGet G day).Pairwise
      (fun a b => gapE a ≤ gapS b ∨ gapE b ≤ gapS a)) :
    find_common_free_times [G, G] g =
      Except.ok (weekdays.map (fun day => (day, dayGet G day))) := by
  unfold find_common_free_times
  rw [if_neg (by simp)]
  exact dayLoop_self hg hcanon hnov

/-- Witness for `C5_self_intersection` at the Monday-gap schedule of C8. -/
theorem C5_self_intersection_witness :
    find_common_free_times [c8_G1, c8_G1] 30 =
      Except.ok (weekdays.map (fun day => (day, dayGet c8_G1 day))) :=
  C5_self_intersection c8_G1 30 (by decide) (by decide) (by decide)

/-- C5 counterexample: a schedule whose Monday gap has duration ≥ 30 and no
overlap issues, but a non-padded start string `"9:00 AM"`.  Self-intersection
re-renders the time strings through `minutes_to_time`, so the returned Monday
list differs from the schedule's own gap list. -/
theorem C5_counterexample :
    find_common_free_times
        [[("Mon", [⟨"9:00 AM", "10:00 AM", 60⟩])], [("Mon", [⟨"9:00 AM", "10:00 AM", 60⟩])]]
        30 =
      Except.ok [("Mon", [⟨"09:00 AM", "10:00 AM", 60⟩]), ("Tue", []), ("Wed", []),
        ("Thu", []), ("Fri", [])] ∧
    dayGet [("Mon", [⟨"9:00 AM", "10:00 AM", 60⟩])] "Mon" ≠
      [⟨"09:00 AM", "10:00 AM", 60⟩] := by
  constructor
  · rfl
  · decide

/-! ### Embedding of `find_times.py` -/

/-- An OCR text fragment (`{text, bbox: (x1, y1, x2, y2), confidence}`). -/
structure Region where
  text : String
  x1 : Int
  y1 : Int
  x2 : Int
  y2 : Int
  confidence : ℚ
deriving DecidableEq, Repr

/-- A colored block.  The `was_split` key is absent (hence falsy) on normal
blocks, modelled by the `false` default. -/
structure Block where
  x1 : Int
  y1 : Int
  x2 : Int
  y2 : Int
  center_x : Int
  center_y : Int
  was_split : Bool := false
deriving DecidableEq, Repr

def defaultRegion : Region := ⟨"", 0, 0, 0, 0, 0⟩

/-- Python `str.strip()`: whitespace removed from both ends (character
level, so it evaluates in the kernel, unlike `String.trim`). -/
def pystrip (s : String) : String :=
  ⟨((s.data.dropWhile Char.isWhitespace).reverse.dropWhile Char.isWhitespace).reverse⟩

/-- Python `str.lower()` (the text seen here is ASCII). -/
def pylower (s : String) : String := ⟨s.data.map Char.toLower⟩

/-- One character of the `[A-Z]` class. -/
def isUpperAZ (c : Char) : Bool := 'A' ≤ c && c ≤ 'Z'

/-- Match `(?!ORIE)[A-Z]{4}\s*\d{4}` at the head of the character list: the
negative lookahead, four uppercase letters, greedily skipped whitespace
(safe: whitespace and digits are disjoint, so greediness is exact), and four
digits; anything may follow. -/
def courseMatchAt : List Char → Bool
  | c1 :: c2 :: c3 :: c4 :: rest =>
    if c1 = 'O' && c2 = 'R' && c3 = 'I' && c4 = 'E' then false
    else if isUpperAZ c1 && isUpperAZ c2 && isUpperAZ c3 && isUpperAZ c4 then
      match rest.dropWhile Char.isWhitespace with
      | d1 :: d2 :: d3 :: d4 :: _ => d1.isDigit && d2.isDigit && d3.isDigit && d4.isDigit
      | _ => false
    else false
  | _ => false

def courseSearchAux : List Char → Bool
  | [] => false
  | l@(_ :: rest) => courseMatchAt l || courseSearchAux rest

/-- `re.search` of the compiled course pattern
`re.compile(r'(?!ORIE)[A-Z]{4}\s*\d{4}')`: try a match at every start
position. -/
def courseSearch (s : String) : Bool := courseSearchAux s.data

example : courseSearch "COMP 1633" = true := by decide
example : courseSearch "ORIE 3300" = false := by decide
example : courseSearch "MATH1505 Lecture" = true := by decide
example : courseSearch "XORIE 3300" = false := by decide
example : courseSearch "lecture" = false := by decide

/-- Whether `n` is a prefix of `l` (helper for substring containment). -/
def leadsWith : List Char → List Char → Bool
  | [], _ => true
  | _ :: _, [] => false
  | a :: as, b :: bs => a = b && leadsWith as bs

def containsSubAux (n : List Char) : List Char → Bool
  | [] => leadsWith n []
  | l@(_ :: rest) => leadsWith n l || containsSubAux n rest

/-- Python's substring test `needle in hay`. -/
def containsSub (needle hay : String) : Bool := containsSubAux needle.data hay.data

example : containsSub "lab" "biology laboratory" = true := by decide
example : containsSub "lecture" "orie 3300" = false := by decide

/-- `find_class_type` from `find_times.py`: the first region within
`threshold` of the course position (both axes) containing one of the
keywords decides the type; default `'Lecture'`. -/
def find_class_type (course_x course_y : Int) (text_regions : List Region)
    (threshold : Int) : String :=
  match text_regions with
  | [] => "Lecture"
  | r :: rest =>
    let text := pylower r.text
    let region_x := (r.x1 + r.x2).fdiv 2
    let region_y := (r.y1 + r.y2).fdiv 2
    if |region_x - course_x| < threshold ∧ |region_y - course_y| < threshold then
      if containsSub "lecture" text then "Lecture"
      else if containsSub "lab" text || containsSub "laboratory" text then "Laboratory"
      else if containsSub "tutorial" text then "Tutorial"
      else find_class_type course_x course_y rest threshold
    else find_class_type course_x course_y rest threshold

/-- `find_closest_day` from `find_times.py`: the first day column within
`threshold` of the fragment's horizontal center, else `None`. -/
def find_closest_day (center_x : Int) : List (String × Int) → Int → Option String
  | [], _ => none
  | (day, col_x) :: rest, threshold =>
    if |center_x - col_x| < threshold then some day
    else find_closest_day center_x rest threshold

/-- The pairwise `(y2 - y1) / hour_diff` samples of
`calculate_pixels_per_hour`, skipping pairs with non-positive time
difference; an unparseable label is a raised `ValueError`. -/
def pphDiffs : List (String × ℚ) → Except PyErr (List ℚ)
  | (t1, ya) :: (t2, yb) :: rest =>
    match time_to_minutes t1, time_to_minutes t2 with
    | some m1, some m2 =>
      let hour_diff : ℚ := ((m2 : ℚ) - (m1 : ℚ)) / 60
      match pphDiffs ((t2, yb) :: rest) with
      | Except.ok ds =>
        Except.ok (if hour_diff > 0 then ((yb - ya) / hour_diff) :: ds else ds)
      | Except.error e => Except.error e
    | _, _ => Except.error PyErr.valueError
  | _ => Except.ok []

/-- `calculate_pixels_per_hour` from `find_times.py`. -/
def calculate_pixels_per_hour (sorted_times : List (String × ℚ)) : Except PyErr ℚ :=
  if sorted_times.length < 2 then Except.ok 0
  else match pphDiffs sorted_times with
  | Except.ok ds => Except.ok (if ds.isEmpty then 0 else ds.sum / (ds.length : ℚ))
  | Except.error e => Except.error e

/-- `datetime.strftime('%I:%M %p')` of an absolute minutes value: the
time-of-day component, rendered exactly as `minutes_to_time` renders it. -/
def strftimeIM (m : Int) : String := minutes_to_time (m % 1440)

/-- The inner `for _ in range(int(hour_diff))` loop of `fill_missing_hours`:
step one hour and one average pixel height at a time, inserting labels not
already present while the synthesized time is strictly before the next
marker. -/
def fillInner (avg : ℚ) (m2 : Nat) : Nat → Nat → ℚ → List (String × ℚ) → List (String × ℚ)
  | 0, _, _, filled => filled
  | n + 1, current_time, current_y, filled =>
    let t := current_time + 60
    let y := current_y + avg
    let filled' :=
      if t < m2 then
        let time_str := strftimeIM (t : Int)
        if filled.any (fun p => p.1 == time_str) then filled
        else filled ++ [(time_str, y)]
      else filled
    fillInner avg m2 n t y filled'

/-- The outer loop of `fill_missing_hours` over adjacent sorted markers. -/
def fillOuter (avg : ℚ) : List (String × ℚ) → List (String × ℚ) →
    Except PyErr (List (String × ℚ))
  | filled, (t1, ya) :: (t2, yb) :: rest =>
    match time_to_minutes t1, time_to_minutes t2 with
    | some m1, some m2 =>
      let hour_diff : ℚ := ((m2 : ℚ) - (m1 : ℚ)) / 60
      let filled' := if hour_diff > 3 / 2 then
          fillInner avg m2 (Int.toNat ⌊hour_diff⌋) m1 ya filled
        else filled
      fillOuter avg filled' ((t2, yb) :: rest)
    | _, _ => Except.error PyErr.valueError
  | filled, _ => Except.ok filled

/-- `fill_missing_hours` from `find_times.py`.  `int()` on the positive
`hour_diff` is a floor; the final result is re-sorted by pixel position. -/
def fill_missing_hours (time_rows : List (String × ℚ)) : Except PyErr (List (String × ℚ)) :=
  if time_rows.length < 2 then Except.ok time_rows
  else
    let sorted_times := pysort (fun a b : String × ℚ => decide (a.2 ≤ b.2)) time_rows
    match calculate_pixels_per_hour sorted_times with
    | Except.error e => Except.error e
    | Except.ok avg =>
      if avg = 0 then Except.ok time_rows
      else
        match fillOuter avg time_rows sorted_times with
        | Except.error e => Except.error e
        | Except.ok filled =>
          Except.ok (pysort (fun a b : String × ℚ => decide (a.2 ≤ b.2)) filled)

/-- Python `int()` applied to a float: truncation toward zero. -/
def pytrunc (q : ℚ) : Int := if q < 0 then -⌊-q⌋ else ⌊q⌋

/-- The course fragments whose centers lie inside the block (inclusive
bounds).  The Python code stores derived dicts; here the regions themselves
are kept and the derived fields recomputed identically at the use sites. -/
def coursesInBlock (text_regions : List Region) (pat : String → Bool) (block : Block) :
    List Region :=
  text_regions.filter (fun r =>
    pat r.text &&
      (let center_x := (r.x1 + r.x2).fdiv 2
       let center_y := (r.y1 + r.y2).fdiv 2
       decide (block.x1 ≤ center_x ∧ center_x ≤ block.x2 ∧
         block.y1 ≤ center_y ∧ center_y ≤ block.y2)))

/-- Sub-blocks for the second and later courses of a same-name stacked
split: each spans from the midpoint with the previous course's text to the
midpoint with the next (or the block bottom, for the last course). -/
def stackRest (block : Block) (prev : Region) : List Region → List Block
  | [c] =>
    let split_y := (prev.y2 + c.y1).fdiv 2
    [⟨block.x1, split_y, block.x2, block.y2, block.center_x,
      (split_y + block.y2).fdiv 2, false⟩]
  | c :: next :: rest =>
    let split_y_top := (prev.y2 + c.y1).fdiv 2
    let split_y_bottom := (c.y2 + next.y1).fdiv 2
    ⟨block.x1, split_y_top, block.x2, split_y_bottom, block.center_x,
      (split_y_top + split_y_bottom).fdiv 2, false⟩ :: stackRest block c (next :: rest)
  | [] => []

/-- The same-name stacked split: the first sub-block runs from the block top
to the midpoint between the first two course texts, the rest follow
`stackRest`.  Callers guarantee at least two courses. -/
def stackSplit (block : Block) : List Region → List Block
  | c0 :: c1 :: rest =>
    let split_y := (c0.y2 + c1.y1).fdiv 2
    ⟨block.x1, block.y1, block.x2, split_y, block.center_x,
      (block.y1 + split_y).fdiv 2, false⟩ :: stackRest block c0 (c1 :: rest)
  | _ => []

/-- The per-block body of `split_overlapping_blocks`: trim a horizontally
split single-course block to the standard duration (`'text_bbox' in course`
is always true, so the class-type lookup always runs), split same-name
stacks, and keep everything else unchanged. -/
def processBlock (text_regions : List Region) (pat : String → Bool)
    (sorted_times : List (String × ℚ)) (block : Block) : Except PyErr (List Block) :=
  let courses := coursesInBlock text_regions pat block
  match block.was_split, courses with
  | true, [course] =>
    let class_type := find_class_type ((course.x1 + course.x2).fdiv 2)
      ((course.y1 + course.y2).fdiv 2) text_regions 100
    match (if sorted_times.isEmpty then Except.ok (108 : ℚ)
           else calculate_pixels_per_hour sorted_times) with
    | Except.error e => Except.error e
    | Except.ok pixels_per_hour =>
      let expected_duration_hours : ℚ := if class_type = "Lecture" then 3 / 2 else 1
      let expected_height : Int := pytrunc (pixels_per_hour * expected_duration_hours)
      let text_center_y := (course.y1 + course.y2).fdiv 2
      let trimmed_y1 := text_center_y - pytrunc ((expected_height : ℚ) * (2 / 10))
      let trimmed_y2 := trimmed_y1 + expected_height
      let ty1 := max block.y1 trimmed_y1
      let ty2 := min block.y2 trimmed_y2
      Except.ok [⟨block.x1, ty1, block.x2, ty2, block.center_x, (ty1 + ty2).fdiv 2, false⟩]
  | _, _ =>
    if courses.length > 1 then
      if courses.all (fun c => c.text = (courses.headD defaultRegion).text) then
        Except.ok (stackSplit block (pysort (fun a b : Region =>
          decide ((a.y1 + a.y2).fdiv 2 ≤ (b.y1 + b.y2).fdiv 2)) courses))
      else Except.ok [block]
    else Except.ok [block]

def splitLoop (text_regions : List Region) (pat : String → Bool)
    (sorted_times : List (String × ℚ)) : List Block → Except PyErr (List Block)
  | [] => Except.ok []
  | b :: bs =>
    match processBlock text_regions pat sorted_times b with
    | Except.error e => Except.error e
    | Except.ok xs =>
      match splitLoop text_regions pat sorted_times bs with
      | Except.error e => Except.error e
      | Except.ok rest => Except.ok (xs ++ rest)

/-- `split_overlapping_blocks` from `find_times.py`. -/
def split_overlapping_blocks (text_regions : List Region) (colored_blocks : List Block)
    (pat : String → Bool) (sorted_times : List (String × ℚ)) :
    Except PyErr (List Block) :=
  splitLoop text_regions pat sorted_times colored_blocks

/-- One bracketed interpolation of `interpolate_time`: interpolate elapsed
minutes by the vertical fraction, then round the `.minute` field to
`:00`/`:30`/next `:00` and render. -/
def interpValue (m1 m2 : Nat) (frac : ℚ) : String :=
  let time_diff : ℚ := (m2 : ℚ) - (m1 : ℚ)
  let total : ℚ := (m1 : ℚ) + frac * time_diff
  let fl : Int := ⌊total⌋
  let minute : Int := fl % 60
  if minute < 15 then strftimeIM (fl - minute)
  else if minute < 45 then strftimeIM (fl - minute + 30)
  else strftimeIM (fl - minute + 60)

/-- The bracketing loop of `interpolate_time`. -/
def interpLoop (y_position : ℚ) : List (String × ℚ) → Except PyErr (Option String)
  | (time1, ya) :: (time2, yb) :: rest =>
    if ya ≤ y_position ∧ y_position ≤ yb then
      let frac : ℚ := if yb ≠ ya then (y_position - ya) / (yb - ya) else 0
      match time_to_minutes time1, time_to_minutes time2 with
      | some m1, some m2 => Except.ok (some (interpValue m1 m2 frac))
      | _, _ => Except.error PyErr.valueError
    else interpLoop y_position ((time2, yb) :: rest)
  | _ => Except.ok none

/-- `interpolate_time` from `find_times.py`.  On an empty marker list the
fallback `sorted_times[0]` subscript raises `IndexError`. -/
def interpolate_time (y_position : ℚ) (sorted_times : List (String × ℚ)) :
    Except PyErr String :=
  match interpLoop y_position sorted_times with
  | Except.error e => Except.error e
  | Except.ok (some s) => Except.ok s
  | Except.ok none =>
    match sorted_times with
    | [] => Except.error PyErr.indexError
    | (t0, y0) :: restT =>
      if y_position < y0 then Except.ok t0
      else Except.ok (((t0, y0) :: restT).getLastD (t0, y0)).1

/-- `add_minutes_to_time` from `find_times.py`. -/
def add_minutes_to_time (time_str : String) (minutes : Int) : Except PyErr String :=
  match time_to_minutes time_str with
  | some m => Except.ok (strftimeIM ((m : Int) + minutes))
  | none => Except.error PyErr.valueError

/-- The grid produced by `identify_grid_structure`: day columns and time
rows. -/
structure Grid where
  days : List (String × Int)
  times : List (String × ℚ)

/-- The per-fragment body of the `for region in text_regions` loop of
`extract_classes`.  Python's `if day and start_time` tests string/None
truthiness, modelled by comparison with `""`. -/
def processRegion (grid_days : List (String × Int)) (sorted_times : List (String × ℚ))
    (split_blocks : List Block) (text_regions : List Region) (r : Region) :
    Except PyErr (Option ClassEntry) :=
  if courseSearch r.text ∧ r.confidence > 2 / 5 then
    let center_x := (r.x1 + r.x2).fdiv 2
    let center_y := (r.y1 + r.y2).fdiv 2
    let day := find_closest_day center_x grid_days 150
    let class_type := find_class_type center_x center_y text_regions 100
    let containing_block := split_blocks.find? (fun b =>
      decide (b.x1 ≤ center_x ∧ center_x ≤ b.x2 ∧ b.y1 ≤ center_y ∧ center_y ≤ b.y2))
    match containing_block with
    | some b =>
      let block_height : Int := b.y2 - b.y1
      match calculate_pixels_per_hour sorted_times with
      | Except.error e => Except.error e
      | Except.ok pixels_per_hour =>
        let duration_minutes : Int :=
          if pixels_per_hour > 0 then
            let actual_hours : ℚ := (block_height : ℚ) / pixels_per_hour
            if actual_hours < 1 then 60
            else if actual_hours < 8 / 5 then 90
            else if actual_hours < 5 / 2 then 120
            else 180
          else if class_type = "Lecture" then 90 else 60
        match interpolate_time (b.y1 : ℚ) sorted_times with
        | Except.error e => Except.error e
        | Except.ok start_time =>
          match add_minutes_to_time start_time duration_minutes with
          | Except.error e => Except.error e
          | Except.ok end_time =>
            if day.getD "" ≠ "" ∧ start_time ≠ "" then
              Except.ok (some ⟨pystrip r.text, day.getD "", start_time, end_time, class_type⟩)
            else Except.ok none
    | none =>
      match interpolate_time (r.y1 : ℚ) sorted_times with
      | Except.error e => Except.error e
      | Except.ok start_time =>
        let duration : Int := if class_type = "Lecture" then 90 else 60
        match add_minutes_to_time start_time duration with
        | Except.error e => Except.error e
        | Except.ok end_time =>
          if day.getD "" ≠ "" ∧ start_time ≠ "" then
            Except.ok (some ⟨pystrip r.text, day.getD "", start_time, end_time, class_type⟩)
          else Except.ok none
  else Except.ok none

def extractLoop (grid_days : List (String × Int)) (sorted_times : List (String × ℚ))
    (split_blocks : List Block) (text_regions : List Region) :
    List Region → Except PyErr (List ClassEntry)
  | [] => Except.ok []
  | r :: rs =>
    match processRegion grid_days sorted_times split_blocks text_regions r with
    | Except.error e => Except.error e
    | Except.ok entry? =>
      match extractLoop grid_days sorted_times split_blocks text_regions rs with
      | Except.error e => Except.error e
      | Except.ok rest =>
        Except.ok (match entry? with
          | some entry => entry :: rest
          | none => rest)

/-- `extract_classes` from `find_times.py`. -/
def extract_classes (text_regions : List Region) (grid : Grid)
    (colored_blocks : List Block) : Except PyErr (List ClassEntry) :=
  let sorted_times := pysort (fun a b : String × ℚ => decide (a.2 ≤ b.2)) grid.times
  match split_overlapping_blocks text_regions colored_blocks courseSearch sorted_times with
  | Except.error e => Except.error e
  | Except.ok split_blocks =>
    extractLoop grid.days sorted_times split_blocks text_regions text_regions

/-! ### C7 — the "ORIE 3300" exclusion -/

/-- C7: a fragment reading exactly `"ORIE 3300"` is never matched by the
course pattern; consequently the per-fragment step of `extract_classes`
(`processRegion`, folded by `extractLoop`) emits no entry for it, and
removing such a fragment from the processed list leaves the loop's result
unchanged — for every grid, block set and confidence value. -/
theorem C7_orie_excluded :
    courseSearch "ORIE 3300" = false ∧
    (∀ (grid_days : List (String × Int)) (sorted_times : List (String × ℚ))
      (split_blocks : List Block) (text_regions : List Region) (r : Region),
      r.text = "ORIE 3300" →
      processRegion grid_days sorted_times split_blocks text_regions r =
        Except.ok none) ∧
    (∀ (grid_days : List (String × Int)) (sorted_times : List (String × ℚ))
      (split_blocks : List Block) (text_regions : List Region)
      (l1 l2 : List Region) (r : Region), r.text = "ORIE 3300" →
      extractLoop grid_days sorted_times split_blocks text_regions (l1 ++ r :: l2) =
        extractLoop grid_days sorted_times split_blocks text_regions (l1 ++ l2)) := by
  have hskip : ∀ (grid_days : List (String × Int)) (sorted_times : List (String × ℚ))
      (split_blocks : List Block) (text_regions : List Region) (r : Region),
      r.text = "ORIE 3300" →
      processRegion grid_days sorted_times split_blocks text_regions r =
        Except.ok none := by
    intro grid_days sorted_times split_blocks text_regions r hr
    have hfalse : ¬ (courseSearch r.text = true ∧ r.confidence > 2 / 5) := by
      rw [hr]
      rintro ⟨h1, -⟩
      exact absurd h1 (by decide)
    unfold processRegion
    rw [if_neg hfalse]
  refine ⟨by decide, hskip, ?_⟩
  intro grid_days sorted_times split_blocks text_regions l1
  induction l1 with
  | nil =>
    intro l2 r hr
    simp only [List.nil_append, extractLoop,
      hskip grid_days sorted_times split_blocks text_regions r hr]
    cases hE : extractLoop grid_days sorted_times split_blocks text_regions l2 <;> rfl
  | cons q l1' ih =>
    intro l2 r hr
    simp only [List.cons_append, extractLoop, List.append_eq, ih l2 r hr]

/-- Witness for `C7_orie_excluded` at a concrete fragment. -/
theorem C7_orie_excluded_witness :
    processRegion [] [] [] [] ⟨"ORIE 3300", 0, 0, 10, 10, 1⟩ = Except.ok none :=
  C7_orie_excluded.2.1 [] [] [] [] ⟨"ORIE 3300", 0, 0, 10, 10, 1⟩ rfl

/-! ### C4 — empty time grid -/

/-- C4: with no time markers detected at all, `extract_classes` on a
course-code fragment with confidence above 0.4 raises `IndexError` (from the
`sorted_times[0]` fallback subscript of `interpolate_time`) — no
`GridInferenceFailed` condition exists anywhere in the code. -/
theorem C4_empty_grid_indexerror :
    extract_classes [⟨"COMP 1633", 10, 10, 60, 20, 9 / 10⟩]
      ⟨[("Mon", 100)], []⟩ [] = Except.error PyErr.indexError := by
  have hc : courseSearch "COMP 1633" = true := by decide
  have hl1 : containsSub "lecture" (pylower "COMP 1633") = false := by decide
  have hl2 : containsSub "lab" (pylower "COMP 1633") = false := by decide
  have hl3 : containsSub "laboratory" (pylower "COMP 1633") = false := by decide
  have hl4 : containsSub "tutorial" (pylower "COMP 1633") = false := by decide
  norm_num [extract_classes, pysort, split_overlapping_blocks, splitLoop,
    extractLoop, processRegion, find_closest_day, find_class_type,
    interpolate_time, interpLoop, calculate_pixels_per_hour,
    hc, hl1, hl2, hl3, hl4]

/-! ### C6 — trimming a horizontally split single-course block -/

/-- Every sub-block produced for a block of the input appears in the output
of `splitLoop`. -/
theorem splitLoop_mem {tr : List Region} {pat : String → Bool}
    {st : List (String × ℚ)} : ∀ {bs out : List Block},
    splitLoop tr pat st bs = Except.ok out →
    ∀ b ∈ bs, ∃ xs, processBlock tr pat st b = Except.ok xs ∧ ∀ x ∈ xs, x ∈ out := by
  intro bs
  induction bs with
  | nil =>
    intro out _ b hb
    simp at hb
  | cons b0 bs' ih =>
    intro out h b hb
    simp only [splitLoop] at h
    rcases hp : processBlock tr pat st b0 with e | xs0 <;> rw [hp] at h
    · simp at h
    · rcases hr : splitLoop tr pat st bs' with e | rest <;> rw [hr] at h
      · simp at h
      · simp only [Except.ok.injEq] at h
        subst h
        rcases List.mem_cons.mp hb with rfl | hb2
        · exact ⟨xs0, hp, fun x hx => List.mem_append.mpr (Or.inl hx)⟩
        · obtain ⟨xs, hxs, hsub⟩ := ih hr b hb2
          exact ⟨xs, hxs, fun x hx => List.mem_append.mpr (Or.inr (hsub x hx))⟩

/-- C6, amended: a `was_split` block containing exactly one course fragment
is replaced by a block whose top is `max(y1, a)` and bottom
`min(y2, a + H)`, where `H = int(pixels_per_hour × (1.5 if Lecture else
1.0))` and `a` anchors the course text's vertical center 20 % of `H` below
the unclamped top.  Hence the new extent never exceeds the original block's
vertical span and the height is at most `H`, with equality (and the exact
20 % anchoring) whenever the unclamped extent already lies within the
block. -/
theorem C6_trim_shape (text_regions : List Region) (pat : String → Bool)
    (sorted_times : List (String × ℚ)) (colored_blocks : List Block)
    (block : Block) (course : Region) (out : List Block) (pph : ℚ)
    (hout : split_overlapping_blocks text_regions colored_blocks pat sorted_times =
      Except.ok out)
    (hmem : block ∈ colored_blocks)
    (hsplit : block.was_split = true)
    (hone : coursesInBlock text_regions pat block = [course])
    (hpph : (if sorted_times.isEmpty then Except.ok (108 : ℚ)
             else calculate_pixels_per_hour sorted_times) = Except.ok pph) :
    let class_type := find_class_type ((course.x1 + course.x2).fdiv 2)
      ((course.y1 + course.y2).fdiv 2) text_regions 100
    let H : Int := pytrunc (pph * (if class_type = "Lecture" then 3 / 2 else 1))
    let a : Int := (course.y1 + course.y2).fdiv 2 - pytrunc ((H : ℚ) * (2 / 10))
    ∃ b' ∈ out,
      b' = ⟨block.x1, max block.y1 a, block.x2, min block.y2 (a + H), block.center_x,
        (max block.y1 a + min block.y2 (a + H)).fdiv 2, false⟩ ∧
      block.y1 ≤ b'.y1 ∧ b'.y2 ≤ block.y2 ∧ b'.y2 - b'.y1 ≤ H ∧
      (block.y1 ≤ a → a + H ≤ block.y2 → b'.y1 = a ∧ b'.y2 - b'.y1 = H) := by
  intro class_type H a
  obtain ⟨xs, hxs, hsub⟩ := splitLoop_mem hout block hmem
  have hxs' : xs = [⟨block.x1, max block.y1 a, block.x2, min block.y2 (a + H),
      block.center_x, (max block.y1 a + min block.y2 (a + H)).fdiv 2, false⟩] := by
    rw [processBlock.eq_def] at hxs
    simp only [hone, hsplit] at hxs
    rw [hpph] at hxs
    simp only [Except.ok.injEq] at hxs
    exact hxs.symm
  subst hxs'
  refine ⟨_, hsub _ (by simp), rfl, ?_, ?_, ?_, ?_⟩
  · show block.y1 ≤ max block.y1 a
    exact le_max_left _ _
  · show min block.y2 (a + H) ≤ block.y2
    exact min_le_left _ _
  · show min block.y2 (a + H) - max block.y1 a ≤ H
    have h1 : a ≤ max block.y1 a := le_max_right _ _
    have h2 : min block.y2 (a + H) ≤ a + H := min_le_right _ _
    omega
  · intro ha hb
    have h1 : max block.y1 a = a := max_eq_right ha
    have h2 : min block.y2 (a + H) = a + H := min_eq_right hb
    constructor
    · show max block.y1 a = a
      exact h1
    · show min block.y2 (a + H) - max block.y1 a = H
      omega

/-- Witness for `C6_trim_shape`: an unclamped instance (tall block, fallback
`pixels_per_hour = 108`, Lecture default) where the trimmed block has height
exactly `int(108 × 1.5) = 162` anchored 32 px above the text center. -/
theorem C6_trim_shape_witness :
    let course : Region := ⟨"COMP 1633", 10, 95, 60, 105, 1⟩
    let block : Block := ⟨0, 0, 200, 400, 100, 200, true⟩
    let class_type := find_class_type ((course.x1 + course.x2).fdiv 2)
      ((course.y1 + course.y2).fdiv 2) [course] 100
    let H : Int := pytrunc (108 * (if class_type = "Lecture" then 3 / 2 else 1))
    let a : Int := (course.y1 + course.y2).fdiv 2 - pytrunc ((H : ℚ) * (2 / 10))
    ∃ b' ∈ [(⟨0, 68, 200, 230, 100, 149, false⟩ : Block)],
      b' = ⟨block.x1, max block.y1 a, block.x2, min block.y2 (a + H), block.center_x,
        (max block.y1 a + min block.y2 (a + H)).fdiv 2, false⟩ ∧
      block.y1 ≤ b'.y1 ∧ b'.y2 ≤ block.y2 ∧ b'.y2 - b'.y1 ≤ H ∧
      (block.y1 ≤ a → a + H ≤ block.y2 → b'.y1 = a ∧ b'.y2 - b'.y1 = H) := by
  intro course block class_type H a
  have hone : coursesInBlock [course] courseSearch block = [course] := by decide
  have hout : split_overlapping_blocks [course] [block] courseSearch [] =
      Except.ok [⟨0, 68, 200, 230, 100, 149, false⟩] := by
    have hl1 : containsSub "lecture" (pylower "COMP 1633") = false := by decide
    have hl2 : containsSub "lab" (pylower "COMP 1633") = false := by decide
    have hl3 : containsSub "laboratory" (pylower "COMP 1633") = false := by decide
    have hl4 : containsSub "tutorial" (pylower "COMP 1633") = false := by decide
    norm_num [split_overlapping_blocks, splitLoop, processBlock, hone,
      find_class_type, hl1, hl2, hl3, hl4, pytrunc]
    decide
  exact C6_trim_shape [course] courseSearch [] [block] block course
    [⟨0, 68, 200, 230, 100, 149, false⟩] 108 hout (by simp) rfl hone rfl

/-- C6 counterexample: a short block (vertical span 50 px) whose single
course text sits near its top.  The trimmed block is clamped to the block's
span, so its height is 50, not `pixels_per_hour × 1.5 = 162` as the claim
states. -/
theorem C6_counterexample :
    split_overlapping_blocks [⟨"COMP 1633", 10, 10, 60, 20, 1⟩]
        [⟨0, 0, 200, 50, 100, 25, true⟩] courseSearch [] =
      Except.ok [⟨0, 0, 200, 50, 100, 25, false⟩] ∧
    ((50 : Int) - 0) ≠ pytrunc ((108 : ℚ) * (3 / 2)) := by
  have hone : coursesInBlock [⟨"COMP 1633", 10, 10, 60, 20, 1⟩] courseSearch
      ⟨0, 0, 200, 50, 100, 25, true⟩ = [⟨"COMP 1633", 10, 10, 60, 20, 1⟩] := by decide
  have hl1 : containsSub "lecture" (pylower "COMP 1633") = false := by decide
  have hl2 : containsSub "lab" (pylower "COMP 1633") = false := by decide
  have hl3 : containsSub "laboratory" (pylower "COMP 1633") = false := by decide
  have hl4 : containsSub "tutorial" (pylower "COMP 1633") = false := by decide
  constructor
  · norm_num [split_overlapping_blocks, splitLoop, processBlock, hone,
      find_class_type, hl1, hl2, hl3, hl4, pytrunc]
    decide
  · norm_num [pytrunc]

/-! ### C2 — hourly coverage of `fill_missing_hours` -/

/-- Parsed time of a marker row. -/
def tvOf (p : String × ℚ) : Nat := t2mD p.1

/-- A synthesized label parses back to its minutes value. -/
theorem strftimeIM_roundtrip {t : Nat} (h : t < 1440) :
    time_to_minutes (strftimeIM (t : Int)) = some t := by
  unfold strftimeIM
  have hmod : ((t : Int) % 1440) = (t : Int) := by omega
  rw [hmod]
  exact_mod_cast roundtrip t h

/-- `fillInner` only appends. -/
theorem fillInner_mono {avg : ℚ} {m2 : Nat} : ∀ (n ct : Nat) (cy : ℚ)
    (filled : List (String × ℚ)) (p : String × ℚ), p ∈ filled →
    p ∈ fillInner avg m2 n ct cy filled := by
  intro n
  induction n with
  | zero =>
    intro ct cy filled p hp
    exact hp
  | succ n ih =>
    intro ct cy filled p hp
    simp only [fillInner]
    apply ih
    split
    · split
      · exact hp
      · exact List.mem_append.mpr (Or.inl hp)
    · exact hp

/-- Every entry of `fillInner`'s result is an old entry or a synthesized
marker `k` whole hours after the segment start, at `k` average pixel heights
below it. -/
theorem fillInner_prov {avg : ℚ} {m2 : Nat} : ∀ (n ct : Nat) (cy : ℚ)
    (filled : List (String × ℚ)) (p : String × ℚ),
    p ∈ fillInner avg m2 n ct cy filled →
    p ∈ filled ∨ ∃ k : Nat, 1 ≤ k ∧ k ≤ n ∧
      p = (strftimeIM ((ct + 60 * k : Nat) : Int), cy + (k : ℚ) * avg) ∧
      ct + 60 * k < m2 := by
  intro n
  induction n with
  | zero =>
    intro ct cy filled p hp
    exact Or.inl hp
  | succ n ih =>
    intro ct cy filled p hp
    simp only [fillInner] at hp
    rcases ih _ _ _ _ hp with hold | ⟨k, hk1, hkn, hpk, hklt⟩
    · -- p came from filled', which is filled possibly plus the k = 1 entry
      split at hold
      · rename_i hlt
        split at hold
        · exact Or.inl hold
        · rcases List.mem_append.mp hold with h | h
          · exact Or.inl h
          · simp only [List.mem_singleton] at h
            refine Or.inr ⟨1, le_refl 1, by omega, ?_, by omega⟩
            rw [h]
            norm_num
      · exact Or.inl hold
    · refine Or.inr ⟨k + 1, by omega, by omega, ?_, by omega⟩
      rw [hpk]
      have harg : ct + 60 + 60 * k = ct + 60 * (k + 1) := by omega
      have harg2 : cy + avg + (k : ℚ) * avg = cy + ((k + 1 : Nat) : ℚ) * avg := by
        push_cast
        ring
      rw [harg, harg2]

/-- `fillInner` leaves an entry parsing to every whole-hour step that stays
strictly before the next detected marker. -/
theorem fillInner_cover {avg : ℚ} {m2 : Nat} (hm2 : m2 ≤ 1440) : ∀ (n j ct : Nat)
    (cy : ℚ) (filled : List (String × ℚ)), 1 ≤ j → j ≤ n → ct + 60 * j < m2 →
    ∃ p ∈ fillInner avg m2 n ct cy filled, time_to_minutes p.1 = some (ct + 60 * j) := by
  intro n
  induction n with
  | zero =>
    intro j ct cy filled h1 h2 h3
    omega
  | succ n ih =>
    intro j ct cy filled h1 h2 h3
    simp only [fillInner]
    by_cases hj : j = 1
    · subst hj
      have hlt : ct + 60 < m2 := by omega
      have hparse : time_to_minutes (strftimeIM ((ct + 60 : Nat) : Int)) = some (ct + 60) :=
        strftimeIM_roundtrip (by omega)
      rw [if_pos hlt]
      by_cases hin : (filled.any fun p => p.1 == strftimeIM ((ct + 60 : Nat) : Int)) = true
      · rw [if_pos hin]
        obtain ⟨q, hq, hq2⟩ := List.any_eq_true.mp hin
        refine ⟨q, fillInner_mono _ _ _ _ q hq, ?_⟩
        have hq3 : q.1 = strftimeIM ((ct + 60 : Nat) : Int) := by simpa using hq2
        rw [hq3, hparse]
      · rw [if_neg hin]
        refine ⟨(strftimeIM ((ct + 60 : Nat) : Int), cy + avg),
          fillInner_mono _ _ _ _ _ (by simp), ?_⟩
        rw [hparse]
    · obtain ⟨p, hp, hpv⟩ := ih (j - 1) (ct + 60) (cy + avg)
        (if ct + 60 < m2 then
          if (filled.any fun p => p.1 == strftimeIM ((ct + 60 : Nat) : Int)) = true then filled
          else filled ++ [(strftimeIM ((ct + 60 : Nat) : Int), cy + avg)]
        else filled) (by omega) (by omega) (by omega)
      refine ⟨p, hp, ?_⟩
      rw [hpv]
      congr 1
      omega

/-- A successful `fillOuter` run keeps every already-present entry. -/
theorem fillOuter_mono {avg : ℚ} : ∀ (l filled : List (String × ℚ))
    {out : List (String × ℚ)}, fillOuter avg filled l = Except.ok out →
    ∀ p ∈ filled, p ∈ out := by
  intro l
  induction l with
  | nil =>
    intro filled out h p hp
    simp only [fillOuter, Except.ok.injEq] at h
    subst h
    exact hp
  | cons a rest ih =>
    intro filled out h p hp
    match rest with
    | [] =>
      obtain ⟨t1, ya⟩ := a
      simp only [fillOuter, Except.ok.injEq] at h
      subst h
      exact hp
    | b :: rest2 =>
      obtain ⟨t1, ya⟩ := a
      obtain ⟨t2, yb⟩ := b
      simp only [fillOuter] at h
      rcases h1 : time_to_minutes t1 with _ | m1 <;> rw [h1] at h
      · simp at h
      · rcases h2 : time_to_minutes t2 with _ | m2 <;> rw [h2] at h
        · simp at h
        · apply ih _ h
          split
          · exact fillInner_mono _ _ _ _ p hp
          · exact hp

/-- Every entry of a successful `fillOuter` run is an original entry or a
synthesized marker a positive whole number of hours after some processed
marker, that many average pixel heights below it. -/
theorem fillOuter_prov {avg : ℚ} : ∀ (l filled : List (String × ℚ))
    {out : List (String × ℚ)}, fillOuter avg filled l = Except.ok out →
    ∀ p ∈ out, p ∈ filled ∨ ∃ q ∈ l, ∃ k : Nat, 1 ≤ k ∧
      time_to_minutes p.1 = some (t2mD q.1 + 60 * k) ∧ p.2 = q.2 + (k : ℚ) * avg := by
  intro l
  induction l with
  | nil =>
    intro filled out h p hp
    simp only [fillOuter, Except.ok.injEq] at h
    subst h
    exact Or.inl hp
  | cons a rest ih =>
    intro filled out h p hp
    match rest with
    | [] =>
      obtain ⟨t1, ya⟩ := a
      simp only [fillOuter, Except.ok.injEq] at h
      subst h
      exact Or.inl hp
    | b :: rest2 =>
      obtain ⟨t1, ya⟩ := a
      obtain ⟨t2, yb⟩ := b
      simp only [fillOuter] at h
      rcases h1 : time_to_minutes t1 with _ | m1 <;> rw [h1] at h
      · simp at h
      · rcases h2 : time_to_minutes t2 with _ | m2 <;> rw [h2] at h
        · simp at h
        · have hm2lt : m2 < 1440 := time_to_minutes_lt h2
          rcases ih _ h p hp with hf | ⟨q, hq, k, hk, hkt, hky⟩
          · split at hf
            · rcases fillInner_prov _ _ _ _ _ hf with hold | ⟨k, hk1, -, hpk, hklt⟩
              · exact Or.inl hold
              · refine Or.inr ⟨(t1, ya), by simp, k, hk1, ?_, ?_⟩
                · rw [hpk]
                  have : time_to_minutes (strftimeIM ((m1 + 60 * k : Nat) : Int)) =
                      some (m1 + 60 * k) := strftimeIM_roundtrip (by omega)
                  rw [this]
                  have hm1 : t2mD t1 = m1 := by
                    unfold t2mD
                    rw [h1]
                    rfl
                  simp [hm1]
                · rw [hpk]
            · exact Or.inl hf
          · exact Or.inr ⟨q, List.mem_cons_of_mem _ hq, k, hk, hkt, hky⟩

/-- A successful `fillOuter` run covers every whole hour strictly between an
adjacent pair of whole-hour markers of the processed list. -/
theorem fillOuter_cover {avg : ℚ} : ∀ (l1 : List (String × ℚ))
    (filled : List (String × ℚ)) (a b : String × ℚ) (l2 : List (String × ℚ))
    {out : List (String × ℚ)},
    fillOuter avg filled (l1 ++ a :: b :: l2) = Except.ok out →
    ∀ h : Nat, h % 60 = 0 → t2mD a.1 % 60 = 0 → t2mD b.1 % 60 = 0 →
    t2mD a.1 < h → h < t2mD b.1 →
    ∃ p ∈ out, time_to_minutes p.1 = some h := by
  intro l1
  induction l1 with
  | nil =>
    intro filled a b l2 out hfo h hh ha hb hah hhb
    obtain ⟨t1, ya⟩ := a
    obtain ⟨t2, yb⟩ := b
    simp only [List.nil_append, fillOuter] at hfo
    rcases h1 : time_to_minutes t1 with _ | m1 <;> rw [h1] at hfo
    · simp at hfo
    · rcases h2 : time_to_minutes t2 with _ | m2 <;> rw [h2] at hfo
      · simp at hfo
      · have hm1 : t2mD (t1, ya).1 = m1 := by
          unfold t2mD
          rw [h1]
          rfl
        have hm2 : t2mD (t2, yb).1 = m2 := by
          unfold t2mD
          rw [h2]
          rfl
        rw [hm1] at ha hah
        rw [hm2] at hb hhb
        have hm2lt : m2 < 1440 := time_to_minutes_lt h2
        have h120 : m1 + 120 ≤ m2 := by omega
        have h120q : (m1 : ℚ) + 120 ≤ (m2 : ℚ) := by exact_mod_cast h120
        have hgate : ((m2 : ℚ) - (m1 : ℚ)) / 60 > 3 / 2 := by
          rw [gt_iff_lt, lt_div_iff (by norm_num : (0:ℚ) < 60)]
          linarith
        dsimp only at hfo
        rw [if_pos hgate] at hfo
        obtain ⟨j, hj1, hjh⟩ : ∃ j : Nat, 1 ≤ j ∧ m1 + 60 * j = h :=
          ⟨(h - m1) / 60, by omega, by omega⟩
        have hjlt : m1 + 60 * j < m2 := by omega
        have hjltq : (m1 : ℚ) + 60 * (j : ℚ) < (m2 : ℚ) := by exact_mod_cast hjlt
        have hjn : j ≤ (⌊((m2 : ℚ) - (m1 : ℚ)) / 60⌋).toNat := by
          have hle : (j : ℤ) ≤ ⌊((m2 : ℚ) - (m1 : ℚ)) / 60⌋ := by
            rw [Int.le_floor]
            rw [le_div_iff (by norm_num : (0:ℚ) < 60)]
            push_cast
            linarith
          omega
        obtain ⟨p, hp, hpv⟩ := fillInner_cover (by omega)
          ((⌊((m2 : ℚ) - (m1 : ℚ)) / 60⌋).toNat) j m1 ya filled hj1 hjn hjlt
        rw [hjh] at hpv
        exact ⟨p, fillOuter_mono _ _ hfo p hp, hpv⟩
  | cons x l1' ih =>
    intro filled a b l2 out hfo h hh ha hb hah hhb
    obtain ⟨t1, ya⟩ := x
    rcases hL : l1' ++ a :: b :: l2 with _ | ⟨y, rest2⟩
    · exact absurd hL (by simp)
    · obtain ⟨t2, yb⟩ := y
      rw [List.cons_append, hL] at hfo
      simp only [fillOuter] at hfo
      rcases h1 : time_to_minutes t1 with _ | m1 <;> rw [h1] at hfo
      · simp at hfo
      · rcases h2 : time_to_minutes t2 with _ | m2 <;> rw [h2] at hfo
        · simp at hfo
        · rw [← hL] at hfo
          exact ih _ a b l2 hfo h hh ha hb hah hhb

/-- On markers with strictly increasing pixel positions and times, every
pixels-per-hour sample is positive, and there is at least one sample once
there are two markers. -/
theorem pphDiffs_pos : ∀ {l : List (String × ℚ)},
    (∀ p ∈ l, (time_to_minutes p.1).isSome = true) →
    l.Pairwise (fun p q => p.2 < q.2 ∧ t2mD p.1 < t2mD q.1) →
    ∃ ds, pphDiffs l = Except.ok ds ∧ (∀ d ∈ ds, 0 < d) ∧
      (2 ≤ l.length → ds ≠ []) := by
  intro l
  match l with
  | [] => exact fun _ _ => ⟨[], rfl, by simp, by simp⟩
  | [a] => exact fun _ _ => ⟨[], rfl, by simp, by simp⟩
  | (t1, ya) :: (t2, yb) :: rest =>
    intro hparse hstrict
    have h1 := t2mD_spec (hparse (t1, ya) (by simp))
    have h2 := t2mD_spec (hparse (t2, yb) (by simp))
    obtain ⟨ds', hds', hpos', -⟩ := pphDiffs_pos
      (fun p hp => hparse p (List.mem_cons_of_mem _ hp))
      (List.pairwise_cons.mp hstrict).2
    have hlt := ((List.pairwise_cons.mp hstrict).1 (t2, yb) (by simp))
    have hyd : ya < yb := hlt.1
    have htd : t2mD (t1, ya).1 < t2mD (t2, yb).1 := hlt.2
    refine ⟨((yb - ya) / (((t2mD (t2, yb).1 : ℚ) - (t2mD (t1, ya).1 : ℚ)) / 60)) :: ds',
      ?_, ?_, by simp⟩
    · simp only [pphDiffs]
      rw [h1, h2]
      dsimp only
      rw [hds']
      dsimp only
      rw [if_pos]
      have hcast : (t2mD (t1, ya).1 : ℚ) < (t2mD (t2, yb).1 : ℚ) := by exact_mod_cast htd
      exact div_pos (sub_pos.mpr hcast) (by norm_num)
    · intro d hd
      rcases List.mem_cons.mp hd with rfl | hd2
      · apply div_pos (by linarith)
        apply div_pos ?_ (by norm_num)
        have : (t2mD (t1, ya).1 : ℚ) < (t2mD (t2, yb).1 : ℚ) := by exact_mod_cast htd
        linarith
      · exact hpos' d hd2

/-- When every label of the processed list parses, `fillOuter` succeeds. -/
theorem fillOuter_ok (avg : ℚ) : ∀ (l filled : List (String × ℚ)),
    (∀ p ∈ l, (time_to_minutes p.1).isSome = true) →
    ∃ out, fillOuter avg filled l = Except.ok out
  | [], filled, _ => ⟨filled, rfl⟩
  | [(t, y)], filled, _ => ⟨filled, rfl⟩
  | (t1, ya) :: (t2, yb) :: rest, filled, hparse => by
    have h1 := hparse (t1, ya) (by simp)
    have h2 := hparse (t2, yb) (by simp)
    rcases hm1 : time_to_minutes t1 with _ | m1
    · rw [hm1] at h1
      simp at h1
    · rcases hm2 : time_to_minutes t2 with _ | m2
      · rw [hm2] at h2
        simp at h2
      · obtain ⟨out, hout⟩ := fillOuter_ok avg ((t2, yb) :: rest)
          (if (((m2 : ℚ) - (m1 : ℚ)) / 60 : ℚ) > 3 / 2 then
            fillInner avg m2 (Int.toNat ⌊(((m2 : ℚ) - (m1 : ℚ)) / 60 : ℚ)⌋) m1 ya filled
          else filled)
          (fun p hp => hparse p (List.mem_cons_of_mem _ hp))
        refine ⟨out, ?_⟩
        simp only [fillOuter]
        rw [hm1, hm2]
        exact hout

/-- With at least two markers, all labels parsing and pixel position and
time strictly increasing, `calculate_pixels_per_hour` returns a positive
average. -/
theorem cpph_pos {l : List (String × ℚ)} (hlen : 2 ≤ l.length)
    (hparse : ∀ p ∈ l, (time_to_minutes p.1).isSome = true)
    (hstrict : l.Pairwise (fun p q => p.2 < q.2 ∧ t2mD p.1 < t2mD q.1)) :
    ∃ avg, calculate_pixels_per_hour l = Except.ok avg ∧ 0 < avg := by
  obtain ⟨ds, hds, hpos, hne⟩ := pphDiffs_pos hparse hstrict
  have hdne : ds ≠ [] := hne hlen
  have hsum : 0 < ds.sum := List.sum_pos ds hpos hdne
  have hlenpos : (0 : ℚ) < (ds.length : ℚ) := by
    have h0 : 0 < ds.length := List.length_pos.mpr hdne
    exact_mod_cast h0
  refine ⟨ds.sum / (ds.length : ℚ), ?_, div_pos hsum hlenpos⟩
  unfold calculate_pixels_per_hour
  rw [if_neg (by omega), hds]
  dsimp only
  rw [if_neg (by simpa [List.isEmpty_iff] using hdne)]

/-- In a list whose parsed times strictly increase, a value strictly between
the first and last entry's time is either some entry's time or lies strictly
between an adjacent pair. -/
theorem findBracket : ∀ {l : List (String × ℚ)} (d : String × ℚ) {h : Nat},
    l.Pairwise (fun p q => t2mD p.1 < t2mD q.1) →
    t2mD (l.headD d).1 < h → h < t2mD (l.getLastD d).1 →
    (∃ q ∈ l, t2mD q.1 = h) ∨
    ∃ l1 a b l2, l = l1 ++ a :: b :: l2 ∧ t2mD a.1 < h ∧ h < t2mD b.1
  | [], d, h, _, h1, h2 => by
    simp only [List.headD_nil, List.getLastD_nil] at h1 h2
    omega
  | [a], d, h, _, h1, h2 => by
    rw [List.headD_cons] at h1
    rw [List.getLastD_cons, List.getLastD_nil] at h2
    omega
  | a :: b :: rest, d, h, hsort, h1, h2 => by
    rw [List.headD_cons] at h1
    by_cases hb : h < t2mD b.1
    · exact Or.inr ⟨[], a, b, rest, rfl, h1, hb⟩
    · by_cases heq : t2mD b.1 = h
      · exact Or.inl ⟨b, by simp, heq⟩
      · have hbh : t2mD b.1 < h := by omega
        have h2' : h < t2mD ((b :: rest).getLastD a).1 := by
          rw [List.getLastD_cons] at h2
          exact h2
        have hrec := findBracket a
          (List.pairwise_cons.mp hsort).2 (by rw [List.headD_cons]; exact hbh) h2'
        rcases hrec with ⟨q, hq, hqe⟩ | ⟨l1, x, y, l2, hEq, hx, hy⟩
        · exact Or.inl ⟨q, List.mem_cons_of_mem a hq, hqe⟩
        · exact Or.inr ⟨a :: l1, x, y, l2, by rw [List.cons_append, hEq], hx, hy⟩

/-- C2: for detected time markers with at least two entries, all labels
parsing to whole hours and, once sorted by pixel position, strictly
increasing in both pixel position and time, `fill_missing_hours` succeeds
with a positive average pixels-per-hour; its output contains an entry
parsing to every whole hour strictly between the first and last sorted
marker, and every output entry is an original marker or one synthesized a
whole number `k` of hours after some marker, placed exactly `k` average
pixel heights below it. -/
theorem C2_fill (time_rows : List (String × ℚ))
    (hlen : 2 ≤ time_rows.length)
    (hparse : ∀ p ∈ time_rows,
      (time_to_minutes p.1).isSome = true ∧ t2mD p.1 % 60 = 0)
    (hstrict : (pysort (fun a b : String × ℚ => decide (a.2 ≤ b.2))
        time_rows).Pairwise (fun p q => p.2 < q.2 ∧ t2mD p.1 < t2mD q.1)) :
    ∃ avg out,
      calculate_pixels_per_hour
        (pysort (fun a b : String × ℚ => decide (a.2 ≤ b.2)) time_rows) =
        Except.ok avg ∧
      0 < avg ∧
      fill_missing_hours time_rows = Except.ok out ∧
      (∀ h : Nat, h % 60 = 0 →
        t2mD (((pysort (fun a b : String × ℚ => decide (a.2 ≤ b.2))
          time_rows).headD ("", 0)).1) < h →
        h < t2mD (((pysort (fun a b : String × ℚ => decide (a.2 ≤ b.2))
          time_rows).getLastD ("", 0)).1) →
        ∃ p ∈ out, time_to_minutes p.1 = some h) ∧
      (∀ p ∈ out, p ∈ time_rows ∨ ∃ q ∈ time_rows, ∃ k : Nat, 1 ≤ k ∧
        time_to_minutes p.1 = some (t2mD q.1 + 60 * k) ∧
        p.2 = q.2 + (k : ℚ) * avg) := by
  set st := pysort (fun a b : String × ℚ => decide (a.2 ≤ b.2)) time_rows
    with hstdef
  have hperm : st.Perm time_rows := pysort_perm _ _
  have hmem_st : ∀ p : String × ℚ, p ∈ st ↔ p ∈ time_rows :=
    fun p => hperm.mem_iff
  have hparse_st : ∀ p ∈ st, (time_to_minutes p.1).isSome = true :=
    fun p hp => (hparse p ((hmem_st p).mp hp)).1
  have hlen_st : 2 ≤ st.length := by
    rw [hperm.length_eq]
    exact hlen
  obtain ⟨avg, hcp, havg⟩ := cpph_pos hlen_st hparse_st hstrict
  obtain ⟨filled, hfo⟩ := fillOuter_ok avg st time_rows hparse_st
  have hfm : fill_missing_hours time_rows =
      Except.ok (pysort (fun a b : String × ℚ => decide (a.2 ≤ b.2)) filled) := by
    unfold fill_missing_hours
    rw [if_neg (by omega)]
    dsimp only
    rw [← hstdef, hcp]
    dsimp only
    rw [if_neg (ne_of_gt havg), hfo]
  refine ⟨avg, pysort (fun a b : String × ℚ => decide (a.2 ≤ b.2)) filled,
    hcp, havg, hfm, ?_, ?_⟩
  · intro h hh hlow hhigh
    have hpw : st.Pairwise (fun p q : String × ℚ => t2mD p.1 < t2mD q.1) :=
      hstrict.imp (fun hpq => hpq.2)
    rcases findBracket ("", 0) hpw hlow hhigh with
      ⟨q, hq, hqe⟩ | ⟨l1, a, b, l2, hEq, hah, hhb⟩
    · refine ⟨q, ?_, ?_⟩
      · exact ((pysort_perm _ filled).mem_iff).mpr
          (fillOuter_mono st time_rows hfo q ((hmem_st q).mp hq))
      · rw [t2mD_spec (hparse_st q hq), hqe]
    · have hfoEq : fillOuter avg time_rows (l1 ++ a :: b :: l2) =
          Except.ok filled := by
        rw [← hEq]
        exact hfo
      have haS : a ∈ st := by
        rw [hEq]
        simp
      have hbS : b ∈ st := by
        rw [hEq]
        simp
      obtain ⟨p, hpmem, hpv⟩ := fillOuter_cover l1 time_rows a b l2 hfoEq h hh
        (hparse a ((hmem_st a).mp haS)).2 (hparse b ((hmem_st b).mp hbS)).2 hah hhb
      exact ⟨p, ((pysort_perm _ filled).mem_iff).mpr hpmem, hpv⟩
  · intro p hp
    have hpf : p ∈ filled := ((pysort_perm _ filled).mem_iff).mp hp
    rcases fillOuter_prov st time_rows hfo p hpf with hin | ⟨q, hq, k, hk1, hkt, hky⟩
    · exact Or.inl hin
    · exact Or.inr ⟨q, (hmem_st q).mp hq, k, hk1, hkt, hky⟩

/-- C2 witness input facts: markers at 08:00 AM and 11:00 AM three hours
apart satisfy all hypotheses, so interpolation succeeds and covers the
in-between whole hours. -/
theorem C2_fill_witness :
    ∃ avg out,
      calculate_pixels_per_hour
        (pysort (fun a b : String × ℚ => decide (a.2 ≤ b.2))
          [("08:00 AM", (0 : ℚ)), ("11:00 AM", 300)]) = Except.ok avg ∧
      0 < avg ∧
      fill_missing_hours [("08:00 AM", (0 : ℚ)), ("11:00 AM", 300)] =
        Except.ok out ∧
      (∀ h : Nat, h % 60 = 0 →
        t2mD (((pysort (fun a b : String × ℚ => decide (a.2 ≤ b.2))
          [("08:00 AM", (0 : ℚ)), ("11:00 AM", 300)]).headD ("", 0)).1) < h →
        h < t2mD (((pysort (fun a b : String × ℚ => decide (a.2 ≤ b.2))
          [("08:00 AM", (0 : ℚ)), ("11:00 AM", 300)]).getLastD ("", 0)).1) →
        ∃ p ∈ out, time_to_minutes p.1 = some h) ∧
      (∀ p ∈ out, p ∈ [("08:00 AM", (0 : ℚ)), ("11:00 AM", 300)] ∨
        ∃ q ∈ [("08:00 AM", (0 : ℚ)), ("11:00 AM", 300)], ∃ k : Nat, 1 ≤ k ∧
        time_to_minutes p.1 = some (t2mD q.1 + 60 * k) ∧
        p.2 = q.2 + (k : ℚ) * avg) := by
  have hsort : pysort (fun a b : String × ℚ => decide (a.2 ≤ b.2))
      [("08:00 AM", (0 : ℚ)), ("11:00 AM", 300)] =
      [("08:00 AM", (0 : ℚ)), ("11:00 AM", 300)] := by
    norm_num [pysort, pyinsert]
  refine C2_fill [("08:00 AM", (0 : ℚ)), ("11:00 AM", 300)] (by norm_num) ?_ ?_
  · intro p hp
    rcases List.mem_cons.mp hp with rfl | hp2
    · exact ⟨by decide, by decide⟩
    · rw [List.mem_singleton] at hp2
      subst hp2
      exact ⟨by decide, by decide⟩
  · rw [hsort]
    refine List.pairwise_cons.mpr ⟨?_, List.pairwise_singleton _ _⟩
    intro q hq
    rw [List.mem_singleton] at hq
    subst hq
    exact ⟨by norm_num, by decide⟩

/-- C2 counterexample: markers at 8:00 AM and 9:30 AM bracket the whole hour
9:00 AM (540 minutes), yet `fill_missing_hours` returns its input unchanged
(the gap of 1.5 hours is not strictly greater than the 1.5-hour gate), so no
entry for 9:00 AM is synthesized. -/
theorem C2_counterexample :
    fill_missing_hours [("8:00 AM", (0 : ℚ)), ("9:30 AM", 150)] =
      Except.ok [("8:00 AM", (0 : ℚ)), ("9:30 AM", 150)] ∧
    time_to_minutes "8:00 AM" = some 480 ∧
    time_to_minutes "9:30 AM" = some 570 ∧
    (540 : Nat) % 60 = 0 ∧
    ∀ p ∈ [("8:00 AM", (0 : ℚ)), ("9:30 AM", 150)],
      time_to_minutes p.1 ≠ some 540 := by
  have h8 : time_to_minutes "8:00 AM" = some 480 := by decide
  have h930 : time_to_minutes "9:30 AM" = some 570 := by decide
  refine ⟨?_, h8, h930, by decide, by decide⟩
  norm_num [fill_missing_hours, pysort, pyinsert, calculate_pixels_per_hour,
    pphDiffs, fillOuter, h8, h930, List.sum_cons, List.sum_nil]
